import Mathlib

/-!
Shallow embedding of `geckopy/gecko.py` (class `GeckoModel`): a GECKO
enzyme-constrained metabolic model layered over a flux-balance model.

Modelling conventions:
* Machine floats become exact rationals (`ℚ`).  pandas `NaN` entries of the
  `concentrations` series become `Option ℚ` with `none` for `NaN`
  (pandas `sum`/`isnull` skip/select `NaN`, which we mirror explicitly).
* A `pd.Series` becomes an association list `List (String × ℚ)`; the
  protein-properties `DataFrame` becomes `List (String × PropRow)`.
* Python exceptions become explicit results: a stateful operation returns the
  state at the moment the exception is raised together with `Option PyErr`
  (Python mutates the object in place, so mutations made before a raise are
  visible to the caller; this is the behaviour the embedding keeps).
* Lookup into the reference table by a missing key raises `KeyError`
  (`pandas` label lookup); an attribute access on the reaction collection for
  a missing id raises `AttributeError`.
* Regular-expression matching of the two fixed patterns
  `^prot_(.*)_exchange$` and `^draw_prot_(.*)$`, and Python's substring
  `query`, are embedded as explicit character-list functions.
-/

namespace Gecko

/-- Python exceptions that the source can raise or catch. -/
inductive PyErr where
  | keyError (k : String)
  | attributeError (k : String)
  | typeError
deriving DecidableEq, Repr

/-- check that the first character list is an initial segment of the second. -/
def isPre : List Char → List Char → Bool
  | [], _ => true
  | _ :: _, [] => false
  | a :: as, b :: bs => a == b && isPre as bs

/-- check that `pat` occurs as a contiguous run inside `hay`
(Python's `pat in hay` substring test). -/
def occurs (pat : List Char) : List Char → Bool
  | [] => pat.isEmpty
  | h :: t => isPre pat (h :: t) || occurs pat t

/-- Python substring test `pat in hay` on strings. -/
def strContains (hay pat : String) : Bool :=
  occurs pat.data hay.data

/-- id of the individual protein exchange reaction of an enzyme:
`'prot_{}_exchange'.format(enzyme_id)`. -/
def protExId (enzyme_id : String) : String :=
  "prot_" ++ enzyme_id ++ "_exchange"

/-- id of the pool draw reaction of an enzyme: `'draw_prot_{}'.format(enzyme_id)`. -/
def drawId (enzyme_id : String) : String :=
  "draw_prot_" ++ enzyme_id

/-- id of the protein metabolite of an enzyme: `'prot_{}_c'.format(enzyme_id)`. -/
def protMetId (enzyme_id : String) : String :=
  "prot_" ++ enzyme_id ++ "_c"

/-- match of the anchored regex `^prot_(.*)_exchange$` returning the capture
(`re.findall` on one id returns at most one capture for this pattern). -/
def protExMatch? (s : String) : Option String :=
  if isPre "prot_".data s.data && isPre "_exchange".data.reverse s.data.reverse
      && decide (14 ≤ s.data.length) then
    some ⟨(s.data.drop 5).take (s.data.length - 14)⟩
  else none

/-- match of the anchored regex `^draw_prot_(.*)$` returning the capture. -/
def drawMatch? (s : String) : Option String :=
  if isPre "draw_prot_".data s.data then some ⟨s.data.drop 10⟩ else none

/-- a metabolite of the flux-balance model: identifier and display name. -/
structure Met where
  id : String
  name : String
deriving DecidableEq, Repr

/-- a reaction of the flux-balance model: identifier, bounds, and its
stoichiometry as an association list from metabolites to coefficients. -/
structure Rxn where
  id : String
  lb : ℚ
  ub : ℚ
  mets : List (Met × ℚ)
deriving DecidableEq, Repr

/-- one row of the protein-properties reference table: molecular weight `mw`
(g/mol) and natural `abundance`. -/
structure PropRow where
  mw : ℚ
  abundance : ℚ
deriving DecidableEq, Repr

/-- the protein-properties reference table, keyed by enzyme identifier. -/
abbrev PropTable := List (String × PropRow)

/-- a `pd.Series` of rational values keyed by enzyme identifier. -/
abbrev Series := List (String × ℚ)

/-- case analysis on an optional value, written as a plain function so that
rewriting can evaluate scrutinees that are themselves computed. -/
def optCase {α β : Type} (d : β) (f : α → β) : Option α → β
  | none => d
  | some a => f a

/-- case analysis on a fallible result, written as a plain function. -/
def exceptCase {ε α β : Type} (f : ε → β) (g : α → β) : Except ε α → β
  | .error e => f e
  | .ok a => g a

@[simp] theorem optCase_none {α β : Type} (d : β) (f : α → β) :
    optCase d f none = d := rfl

@[simp] theorem optCase_some {α β : Type} (d : β) (f : α → β) (a : α) :
    optCase d f (some a) = f a := rfl

@[simp] theorem exceptCase_error {ε α β : Type} (f : ε → β) (g : α → β) (e : ε) :
    exceptCase f g (.error e) = f e := rfl

@[simp] theorem exceptCase_ok {ε α β : Type} (f : ε → β) (g : α → β) (a : α) :
    exceptCase f g (.ok a) = g a := rfl

/-- case analysis on a boolean, written as a plain function. -/
def boolCase {β : Type} (t e : β) : Bool → β
  | true => t
  | false => e

@[simp] theorem boolCase_true {β : Type} (t e : β) : boolCase t e true = t := rfl

@[simp] theorem boolCase_false {β : Type} (t e : β) : boolCase t e false = e := rfl

/-- label lookup in an association list (first matching key, as for unique
pandas/DictList identifiers). -/
def lookup? {α : Type} : List (String × α) → String → Option α
  | [], _ => none
  | p :: rest, k => boolCase (some p.2) (lookup? rest k) (p.1 == k)

theorem lookup?_eq {α : Type} (l : List (String × α)) (k : String) :
    lookup? l k = (l.find? (fun p => p.1 == k)).map Prod.snd := by
  induction l with
  | nil => rfl
  | cons p rest ih =>
    cases h : (p.1 == k) <;> simp [lookup?, List.find?, h, ih, boolCase]

/-- `reactions.get_by_id` / `id in reactions` support: find a reaction by id
(first match, DictList identifiers are unique). -/
def findRxn : List Rxn → String → Option Rxn
  | [], _ => none
  | r :: rest, i => boolCase (some r) (findRxn rest i) (r.id == i)

theorem findRxn_eq (rs : List Rxn) (i : String) :
    findRxn rs i = rs.find? (fun r => r.id == i) := by
  induction rs with
  | nil => rfl
  | cons r rest ih =>
    cases h : (r.id == i) <;> simp [findRxn, List.find?, h, ih, boolCase]

/-- `metabolites.get_by_id`: find a metabolite by id. -/
def findMet : List Met → String → Option Met
  | [], _ => none
  | m :: rest, i => boolCase (some m) (findMet rest i) (m.id == i)

theorem findMet_eq (ms : List Met) (i : String) :
    findMet ms i = ms.find? (fun m => m.id == i) := by
  induction ms with
  | nil => rfl
  | cons m rest ih =>
    cases h : (m.id == i) <;> simp [findMet, List.find?, h, ih, boolCase]

/-- assignment `rxn.bounds = lb, ub` for the reaction with the given id. -/
def setRxnBounds (rs : List Rxn) (i : String) (lb ub : ℚ) : List Rxn :=
  rs.map (fun r => if r.id == i then { r with lb := lb, ub := ub } else r)

/-- `self.reactions.query(pat)`: all reactions whose id contains `pat` as a
substring. -/
def queryRxns : List Rxn → String → List Rxn
  | [], _ => []
  | r :: rest, pat =>
    boolCase (r :: queryRxns rest pat) (queryRxns rest pat) (strContains r.id pat)

theorem queryRxns_eq (rs : List Rxn) (pat : String) :
    queryRxns rs pat = rs.filter (fun r => strContains r.id pat) := by
  induction rs with
  | nil => rfl
  | cons r rest ih =>
    cases h : strContains r.id pat <;> simp [queryRxns, h, ih, boolCase]

/-- `self.add_reactions(new)`: extend the reaction list. -/
def addRxns (rs new : List Rxn) : List Rxn := rs ++ new

/-- boolean membership of a string in a list of strings. -/
def strMem : List String → String → Bool
  | [], _ => false
  | i :: rest, x => (i == x) || strMem rest x

theorem strMem_iff (ids : List String) (x : String) :
    strMem ids x = true ↔ x ∈ ids := by
  induction ids with
  | nil => simp [strMem]
  | cons i rest ih =>
    simp only [strMem, Bool.or_eq_true, beq_iff_eq, ih, List.mem_cons]
    exact or_congr_left eq_comm

/-- `self.remove_reactions(to_remove)`: drop every reaction whose id is among
the listed ids. -/
def removeRxns : List Rxn → List String → List Rxn
  | [], _ => []
  | r :: rest, ids =>
    boolCase (removeRxns rest ids) (r :: removeRxns rest ids) (strMem ids r.id)

theorem removeRxns_eq (rs : List Rxn) (ids : List String) :
    removeRxns rs ids = rs.filter (fun r => !(strMem ids r.id)) := by
  induction rs with
  | nil => rfl
  | cons r rest ih =>
    cases h : strMem ids r.id <;> simp [removeRxns, h, ih, boolCase]

/-- check whether a label occurs among the keys of the series. -/
def hasKey : List (String × Option ℚ) → String → Bool
  | [], _ => false
  | p :: rest, k => (p.1 == k) || hasKey rest k

/-- assignment `self.concentrations[enzyme_id] = value` on a pandas series:
overwrite the entries with that label, or append the label if absent. -/
def concSet (cs : List (String × Option ℚ)) (k : String) (v : ℚ) :
    List (String × Option ℚ) :=
  boolCase (cs.map (fun p => if p.1 == k then (p.1, some v) else p))
    (cs ++ [(k, some v)]) (hasKey cs k)

/-- `self.concentrations.sum()`: pandas skips `NaN` entries. -/
def concSum : List (String × Option ℚ) → ℚ
  | [] => 0
  | p :: rest => optCase (concSum rest) (fun v => v + concSum rest) p.2

theorem concSum_eq (cs : List (String × Option ℚ)) :
    concSum cs = (cs.filterMap Prod.snd).sum := by
  induction cs with
  | nil => rfl
  | cons p rest ih =>
    cases h : p.2 <;> simp [concSum, h, ih]

/-- the labels of the null (`NaN`) entries, in series order:
`self.concentrations[self.concentrations.isnull()].index`. -/
def unmeasuredOf : List (String × Option ℚ) → List String
  | [] => []
  | p :: rest =>
    optCase (p.1 :: unmeasuredOf rest) (fun _ => unmeasuredOf rest) p.2

theorem unmeasuredOf_eq (cs : List (String × Option ℚ)) :
    unmeasuredOf cs =
      cs.filterMap (fun p => if p.2.isNone then some p.1 else none) := by
  induction cs with
  | nil => rfl
  | cons p rest ih =>
    cases h : p.2 <;> simp [unmeasuredOf, h, ih]

/-- sum of the value column of a series. -/
def seriesSum (m : Series) : ℚ := (m.map Prod.snd).sum

/-- `self.protein_properties['mw'].mean()`. -/
def tblMeanMw (tbl : PropTable) : ℚ :=
  (tbl.map (fun p => p.2.mw)).sum / (tbl.length : ℚ)

/-- `self.protein_properties.prod(axis=1).sum()`: sum of per-row products of
the `mw` and `abundance` columns. -/
def tblProdSum (tbl : PropTable) : ℚ :=
  (tbl.map (fun p => p.2.mw * p.2.abundance)).sum

/-- the state of a `GeckoModel` object: the underlying reaction/metabolite
collections plus the enzyme-specific fields set by `__init__` and the
measurement pipeline.  The biomass reaction is held in its own field (the
source holds a direct reference to it). -/
structure GeckoState where
  reactions : List Rxn
  metabolites : List Met
  biomass_reaction : Rxn
  common_protein_pool : Met
  pool_exchange_id : String
  concentrations : List (String × Option ℚ)
  protein_properties : PropTable
  p_total : ℚ
  p_base : ℚ
  c_base : ℚ
  sigma_saturation_factor : ℚ
  gam : ℚ
  amino_acid_polymerization_cost : ℚ
  carbohydrate_polymerization_cost : ℚ
  fp_fraction_protein : ℚ
  fc_carbohydrate_content : ℚ
  fn_mass_fraction_unmeasured_matched : Option ℚ
  fs_matched_adjusted : Option ℚ
  p_measured : Option ℚ
  f_mass_fraction_measured_matched_to_total : Option ℚ
  fm_mass_fraction_matched : Option ℚ
deriving DecidableEq, Repr

/-- `self.unmeasured`: identifiers of the enzymes whose concentration entry is
null. -/
def unmeasured (st : GeckoState) : List String :=
  unmeasuredOf st.concentrations

/-- lookup of the `abundance` column at a list of labels
(`protein_properties['abundance'][keys]`); a missing label raises `KeyError`. -/
def lookupAbundances (tbl : PropTable) : List String → Except PyErr (List ℚ)
  | [] => .ok []
  | k :: ks =>
    optCase (.error (.keyError k))
      (fun row => exceptCase .error (fun l => .ok (row.abundance :: l))
        (lookupAbundances tbl ks))
      (lookup? tbl k)

/-- row lookup at a list of labels (`protein_properties.loc[keys]`); a missing
label raises `KeyError`. -/
def lookupRows (tbl : PropTable) : List String → Except PyErr (List PropRow)
  | [] => .ok []
  | k :: ks =>
    optCase (.error (.keyError k))
      (fun row => exceptCase .error (fun l => .ok (row :: l))
        (lookupRows tbl ks))
      (lookup? tbl k)

/-- `GeckoModel.fraction_to_ggdw`: normalize the measurement series to sum 1,
look up the natural abundances of the measured enzymes, and scale the
normalized series by `p_total` times their summed abundance.  A pure function
of the series, the reference table and `p_total`; it touches no model state. -/
def fraction_to_ggdw (tbl : PropTable) (p_total : ℚ) (fraction : Series) :
    Except PyErr Series :=
  let s := seriesSum fraction
  let normalized := fraction.map (fun p => (p.1, p.2 / s))
  exceptCase .error
    (fun abunds =>
      let fraction_measured := abunds.sum
      let p_measured := p_total * fraction_measured
      .ok (normalized.map (fun p => (p.1, p.2 * p_measured))))
    (lookupAbundances tbl (fraction.map Prod.fst))

/-- step 1 loop of `apply_measurements` acting on the reaction list and the
concentration series: for each measured enzyme whose `mw` is in the table and
whose individual exchange reaction exists, record the concentration and set
the reaction bounds to `[0, value / (mw / 1000)]`; otherwise the
`KeyError` is caught and the entry is skipped. -/
def applyGgdwAux (tbl : PropTable) :
    Series → List Rxn × List (String × Option ℚ) →
      List Rxn × List (String × Option ℚ)
  | [], p => p
  | (k, v) :: rest, p =>
    applyGgdwAux tbl rest
      (optCase p
        (fun row => optCase p
          (fun _ => (setRxnBounds p.1 (protExId k) 0 (v / (row.mw / 1000)),
                     concSet p.2 k v))
          (findRxn p.1 (protExId k)))
        (lookup? tbl k))

/-- step 1 of `apply_measurements` on the whole state. -/
def applyGgdw (st : GeckoState) (ggdw : Series) : GeckoState :=
  let p := applyGgdwAux st.protein_properties ggdw (st.reactions, st.concentrations)
  { st with reactions := p.1, concentrations := p.2 }

/-- steps 2-4 of `apply_measurements`: set `p_measured`, `fm`, `fn` and `f`.
The `fn` computation looks up every unmeasured enzyme in the reference table
and raises `KeyError` if one is absent; `p_measured` and `fm` are already
assigned at that point. -/
def computeScalars (st : GeckoState) : GeckoState × Option PyErr :=
  let pm := concSum st.concentrations
  let st1 := { st with p_measured := some pm,
                       fm_mass_fraction_matched := some (pm / st.p_total) }
  exceptCase (fun e => (st1, some e))
    (fun rows =>
      let fn := (rows.map (fun r => r.mw * r.abundance)).sum /
        tblProdSum st.protein_properties
      let f := fn / (1 - pm / st.p_total)
      ({ st1 with fn_mass_fraction_unmeasured_matched := some fn,
                  f_mass_fraction_measured_matched_to_total := some f }, none))
    (lookupRows st.protein_properties (unmeasured st1))

/-- the draw reaction built for an unmeasured enzyme: stoichiometry
`{common pool: -mmw, protein metabolite: +1}` with the default cobra reaction
bounds `(0, 1000)`. -/
def mkDraw (commonPool : Met) (enzyme_id : String) (protMet : Met) (mmw : ℚ) : Rxn :=
  { id := drawId enzyme_id, lb := 0, ub := 1000,
    mets := [(commonPool, -mmw), (protMet, 1)] }

/-- the `mw / 1000` of an enzyme, falling back to the table average when the
enzyme is missing from the table (the `try`/`except KeyError` of the source). -/
def mmwOf (tbl : PropTable) (enzyme_id : String) : ℚ :=
  optCase (tblMeanMw tbl / 1000) (fun row => row.mw / 1000) (lookup? tbl enzyme_id)

/-- the per-enzyme loop of `constrain_pool`, accumulating `to_remove` and
`new_reactions`.  For each unmeasured enzyme it extends `to_remove` with the
substring query for its exchange id; when no draw reaction exists yet it looks
up the protein metabolite (an absent metabolite raises `KeyError`, unguarded)
and builds the draw reaction. -/
def poolLoop (rs : List Rxn) (ms : List Met) (commonPool : Met)
    (tbl : PropTable) :
    List String → List Rxn → List Rxn → Except PyErr (List Rxn × List Rxn)
  | [], toRemove, newRxns => .ok (toRemove, newRxns)
  | k :: rest, toRemove, newRxns =>
    let toRemove := toRemove ++ queryRxns rs (protExId k)
    if (findRxn rs (drawId k)).isSome then
      poolLoop rs ms commonPool tbl rest toRemove newRxns
    else
      optCase (.error (.keyError (protMetId k)))
        (fun protMet =>
          poolLoop rs ms commonPool tbl rest toRemove
            (newRxns ++ [mkDraw commonPool k protMet (mmwOf tbl k)]))
        (findMet ms (protMetId k))

/-- `GeckoModel.constrain_pool`: set `fs_matched_adjusted` and the pool
exchange bounds, then rebuild the draw reactions for the unmeasured enzymes
and remove their individual exchange reactions (additions before removals).
The pool exchange is addressed by the literal attribute
`self.reactions.prot_pool_exchange`; arithmetic on the not-yet-assigned
scalars (`None`) raises `TypeError`. -/
def constrain_pool (st : GeckoState) : GeckoState × Option PyErr :=
  optCase (st, some .typeError)
    (fun pm =>
      optCase (st, some .typeError)
        (fun f =>
          let fs := (st.p_total - pm) / st.p_base * f * st.sigma_saturation_factor
          optCase ({ st with fs_matched_adjusted := some fs },
              some (.attributeError "prot_pool_exchange"))
            (fun _ =>
              let st1 :=
                { st with
                  fs_matched_adjusted := some fs,
                  reactions := setRxnBounds st.reactions "prot_pool_exchange" 0 fs }
              exceptCase (fun e => (st1, some e))
                (fun out =>
                  let rr := removeRxns (addRxns st1.reactions out.2)
                    (out.1.map (fun r => r.id))
                  ({ st1 with reactions := rr }, none))
                (poolLoop st1.reactions st1.metabolites st1.common_protein_pool
                  st1.protein_properties (unmeasured st1) [] []))
            (findRxn st.reactions "prot_pool_exchange"))
        st.f_mass_fraction_measured_matched_to_total)
    st.p_measured

/-- the fixed polysaccharide name fragments of `adjust_biomass_composition`. -/
def chNames : List String :=
  ["(1->3)-beta-D-glucan", "(1->6)-beta-D-glucan", "chitin", "glycogen",
   "mannan", "trehalose"]

/-- substring classification: energy/cofactor metabolite names. -/
def cofactorName (n : String) : Bool :=
  strContains n "ATP" || strContains n "ADP" || strContains n "H2O" ||
    strContains n "H+" || strContains n "phosphate"

/-- substring classification: amino-acid (tRNA) metabolite names. -/
def aaName (n : String) : Bool := strContains n "tRNA"

/-- substring classification: carbohydrate (polysaccharide) metabolite names. -/
def chName (n : String) : Bool := chNames.any (fun x => strContains n x)

/-- the new biomass coefficient of one metabolite, following the `if`/`elif`
chain of the source: the energy/cofactor branch replaces the magnitude and
keeps the sign, the amino-acid and carbohydrate branches scale the original
coefficient, and everything else is returned unchanged. -/
def adjustCoefficient (st : GeckoState) (name : String) (c : ℚ) : ℚ :=
  let sign : ℚ := if c < 0 then -1 else 1
  if cofactorName name then
    sign * (st.gam + st.amino_acid_polymerization_cost * st.fp_fraction_protein +
      st.carbohydrate_polymerization_cost * st.fc_carbohydrate_content)
  else if aaName name then st.fp_fraction_protein * c
  else if chName name then st.fc_carbohydrate_content * c
  else c

/-- `GeckoModel.adjust_biomass_composition`: rewrite every stoichiometric
coefficient of the biomass reaction in place. -/
def adjust_biomass_composition (st : GeckoState) : GeckoState :=
  { st with biomass_reaction :=
      { st.biomass_reaction with mets :=
          st.biomass_reaction.mets.map (fun p => (p.1, adjustCoefficient st p.1.name p.2)) } }

/-- `GeckoModel.apply_measurements`: the measurement pipeline, strictly
ordered: unit conversion, per-enzyme bound updates, scalar recomputation,
pool constraining, biomass adjustment.  The returned state is the object state
at the end of the call or at the moment an exception propagates. -/
def apply_measurements (st : GeckoState) (measurements : Series) :
    GeckoState × Option PyErr :=
  exceptCase (fun e => (st, some e))
    (fun ggdw =>
      let r2 := computeScalars (applyGgdw st ggdw)
      optCase
        (let r3 := constrain_pool r2.1
         optCase (adjust_biomass_composition r3.1, none)
           (fun e => (r3.1, some e)) r3.2)
        (fun e => (r2.1, some e)) r2.2)
    (fraction_to_ggdw st.protein_properties st.p_total measurements)

/-- filtering helper for `protein_exchanges`. -/
def peFilter (poolId : String) : List Rxn → List Rxn
  | [] => []
  | r :: rest =>
    boolCase (r :: peFilter poolId rest) (peFilter poolId rest)
      (((protExMatch? r.id).isSome || (drawMatch? r.id).isSome) &&
        !(r.id == poolId))

theorem peFilter_eq (poolId : String) (rs : List Rxn) :
    peFilter poolId rs = rs.filter (fun r =>
      ((protExMatch? r.id).isSome || (drawMatch? r.id).isSome) &&
        !(r.id == poolId)) := by
  induction rs with
  | nil => rfl
  | cons r rest ih =>
    cases h : (((protExMatch? r.id).isSome || (drawMatch? r.id).isSome) &&
        !(r.id == poolId)) <;>
      simp only [peFilter, h, boolCase, List.filter_cons, ih] <;> simp [h]

/-- `GeckoModel.protein_exchanges`: reactions matching either naming pattern,
minus the pool exchange reaction itself. -/
def protein_exchanges (st : GeckoState) : List Rxn :=
  peFilter st.pool_exchange_id st.reactions

/-- collect the regex captures of `f` over the ids of a reaction list
(`chain.from_iterable` of per-id `re.findall` results). -/
def collectMatches (f : String → Option String) : List Rxn → List String
  | [] => []
  | r :: rest =>
    optCase (collectMatches f rest) (fun x => x :: collectMatches f rest) (f r.id)

theorem collectMatches_eq (f : String → Option String) (rs : List Rxn) :
    collectMatches f rs = rs.filterMap (fun r => f r.id) := by
  induction rs with
  | nil => rfl
  | cons r rest ih =>
    cases h : f r.id <;> simp [collectMatches, h, ih]

/-- `GeckoModel.individual_enzymes`: captures of the individual-exchange
pattern over the protein exchanges. -/
def individual_enzymes (st : GeckoState) : List String :=
  collectMatches protExMatch? (protein_exchanges st)

/-- `GeckoModel.pool_enzymes`: captures of the draw pattern over the protein
exchanges. -/
def pool_enzymes (st : GeckoState) : List String :=
  collectMatches drawMatch? (protein_exchanges st)

/-- `GeckoModel.enzymes`: the union of the two enzyme sets (membership in the
concatenation is membership in the union of frozensets). -/
def enzymes (st : GeckoState) : List String :=
  individual_enzymes st ++ pool_enzymes st

/-- the natural abundance of an enzyme in the reference table (0 when absent;
used only under hypotheses that make every lookup succeed). -/
def abundanceOf (tbl : PropTable) (k : String) : ℚ :=
  ((lookup? tbl k).map (fun r => r.abundance)).getD 0

/-! ### List toolkit -/

theorem sum_map_mul (l : List ℚ) (a : ℚ) :
    (l.map (fun x => x * a)).sum = l.sum * a := by
  induction l with
  | nil => simp
  | cons h t ih => simp [ih, add_mul]

theorem lookupAbundances_ok (tbl : PropTable) (ks : List String)
    (hk : ∀ k ∈ ks, (lookup? tbl k).isSome) :
    lookupAbundances tbl ks = .ok (ks.map (abundanceOf tbl)) := by
  induction ks with
  | nil => rfl
  | cons k t ih =>
    have hk0 : (lookup? tbl k).isSome := hk k (by simp)
    obtain ⟨row, hrow⟩ := Option.isSome_iff_exists.mp hk0
    have ht := ih (fun x hx => hk x (by simp [hx]))
    simp [lookupAbundances, hrow, ht, abundanceOf, optCase, exceptCase]

theorem lookupAbundances_err (tbl : PropTable) (ks : List String)
    (hk : ∃ k ∈ ks, lookup? tbl k = none) :
    ∃ k, lookupAbundances tbl ks = .error (.keyError k) ∧ k ∈ ks ∧
      lookup? tbl k = none := by
  induction ks with
  | nil => simp at hk
  | cons k t ih =>
    by_cases h0 : lookup? tbl k = none
    · exact ⟨k, by simp [lookupAbundances, h0, optCase], by simp, h0⟩
    · obtain ⟨row, hrow⟩ := Option.isSome_iff_exists.mp (Option.ne_none_iff_isSome.mp h0)
      obtain ⟨k₁, hk₁, hmem, hnone⟩ := ih (by
        obtain ⟨k₂, hk₂, h₂⟩ := hk
        rcases List.mem_cons.mp hk₂ with rfl | h
        · exact absurd h₂ h0
        · exact ⟨k₂, h, h₂⟩)
      refine ⟨k₁, ?_, by simp [hmem], hnone⟩
      simp only [lookupAbundances, hrow, hk₁, optCase, exceptCase]

/-! ### C1: biomass composition rewrite -/

/-- C1.  After `adjust_biomass_composition` every metabolite entry `(m, c)` of
the biomass reaction is stored with the new coefficient
`adjustCoefficient st m.name c`, and that coefficient is: for an
energy/cofactor name, `sign(c) * (gam + amino_acid_polymerization_cost *
fp_fraction_protein + carbohydrate_polymerization_cost *
fc_carbohydrate_content)`; failing that, for a tRNA name,
`fp_fraction_protein * c`; failing that, for a polysaccharide name,
`fc_carbohydrate_content * c`; and for every other name exactly `c`
(categories read in the `if`/`elif` order of the source). -/
theorem C1_adjust_biomass_composition (st : GeckoState) (m : Met) (c : ℚ)
    (hm : (m, c) ∈ st.biomass_reaction.mets) :
    ((m, adjustCoefficient st m.name c) ∈
        (adjust_biomass_composition st).biomass_reaction.mets) ∧
    (cofactorName m.name = true →
      adjustCoefficient st m.name c =
        (if c < 0 then (-1 : ℚ) else 1) *
          (st.gam + st.amino_acid_polymerization_cost * st.fp_fraction_protein +
            st.carbohydrate_polymerization_cost * st.fc_carbohydrate_content)) ∧
    (cofactorName m.name = false → aaName m.name = true →
      adjustCoefficient st m.name c = st.fp_fraction_protein * c) ∧
    (cofactorName m.name = false → aaName m.name = false → chName m.name = true →
      adjustCoefficient st m.name c = st.fc_carbohydrate_content * c) ∧
    (cofactorName m.name = false → aaName m.name = false → chName m.name = false →
      adjustCoefficient st m.name c = c) := by
  refine ⟨?_, ?_, ?_, ?_, ?_⟩
  · have h := List.mem_map_of_mem
      (fun p : Met × ℚ => (p.1, adjustCoefficient st p.1.name p.2)) hm
    simpa [adjust_biomass_composition] using h
  · intro h; simp [adjustCoefficient, h]
  · intro h1 h2; simp [adjustCoefficient, h1, h2]
  · intro h1 h2 h3; simp [adjustCoefficient, h1, h2, h3]
  · intro h1 h2 h3; simp [adjustCoefficient, h1, h2, h3]

/-- concrete biomass reaction with one metabolite in each category. -/
def c1State : GeckoState where
  reactions := []
  metabolites := []
  biomass_reaction :=
    { id := "r_4041", lb := 0, ub := 1000,
      mets := [(⟨"s_0434", "ATP [cytoplasm]"⟩, -60),
               (⟨"s_1", "Ala-tRNA(Ala)"⟩, -2),
               (⟨"s_2", "glycogen [cytoplasm]"⟩, -3),
               (⟨"s_3", "sulphate [cytoplasm]"⟩, -4)] }
  common_protein_pool := ⟨"prot_pool", ""⟩
  pool_exchange_id := "prot_pool_exchange"
  concentrations := []
  protein_properties := []
  p_total := 1/2
  p_base := 1/4
  c_base := 2/5
  sigma_saturation_factor := 1/2
  gam := 31
  amino_acid_polymerization_cost := 17
  carbohydrate_polymerization_cost := 5
  fp_fraction_protein := 2
  fc_carbohydrate_content := 3/8
  fn_mass_fraction_unmeasured_matched := none
  fs_matched_adjusted := none
  p_measured := none
  f_mass_fraction_measured_matched_to_total := none
  fm_mass_fraction_matched := none

/-- witness for C1 at the cofactor metabolite of `c1State`. -/
theorem C1_adjust_biomass_composition_witness :
    ((⟨"s_0434", "ATP [cytoplasm]"⟩, (-60 : ℚ)) ∈ c1State.biomass_reaction.mets) ∧
    (((⟨"s_0434", "ATP [cytoplasm]"⟩ : Met),
        adjustCoefficient c1State "ATP [cytoplasm]" (-60)) ∈
      (adjust_biomass_composition c1State).biomass_reaction.mets) ∧
    adjustCoefficient c1State "ATP [cytoplasm]" (-60) =
      (-1 : ℚ) * (31 + 17 * 2 + 5 * (3/8)) :=
  ⟨by decide,
   (C1_adjust_biomass_composition c1State ⟨"s_0434", "ATP [cytoplasm]"⟩ (-60)
      (by decide)).1,
   by
    have h := (C1_adjust_biomass_composition c1State ⟨"s_0434", "ATP [cytoplasm]"⟩ (-60)
      (by decide)).2.1 (by decide)
    simpa [c1State] using h⟩

/-! ### C2: no guard at fm = 1 -/

/-- model with a single enzyme `E` that carries the whole reference abundance:
measuring it alone accounts for all protein, so `fm = 1`. -/
def c2State : GeckoState :=
  { c1State with
    biomass_reaction := { id := "r_4041", lb := 0, ub := 1000, mets := [] },
    reactions := [{ id := "prot_pool_exchange", lb := 0, ub := 1000,
                    mets := [(⟨"prot_pool", ""⟩, 1)] },
                  { id := "prot_E_exchange", lb := 0, ub := 1000, mets := [] }],
    concentrations := [("E", none)],
    protein_properties := [("E", ⟨50, 1⟩)] }

theorem protExId_E : protExId "E" = "prot_E_exchange" := rfl

/-- state of the C2 model after the measured bounds of `E` are applied. -/
def c2St1 : GeckoState :=
  { c2State with
    reactions := [{ id := "prot_pool_exchange", lb := 0, ub := 1000,
                    mets := [(⟨"prot_pool", ""⟩, 1)] },
                  { id := "prot_E_exchange", lb := 0, ub := 10, mets := [] }],
    concentrations := [("E", some (1/2))] }

/-- state of the C2 model after the derived scalars are recomputed. -/
def c2St2 : GeckoState :=
  { c2St1 with
    p_measured := some (1/2),
    fm_mass_fraction_matched := some 1,
    fn_mass_fraction_unmeasured_matched := some 0,
    f_mass_fraction_measured_matched_to_total := some 0 }

/-- state of the C2 model after `constrain_pool`. -/
def c2St3 : GeckoState :=
  { c2St2 with
    fs_matched_adjusted := some 0,
    reactions := [{ id := "prot_pool_exchange", lb := 0, ub := 0,
                    mets := [(⟨"prot_pool", ""⟩, 1)] },
                  { id := "prot_E_exchange", lb := 0, ub := 10, mets := [] }] }

theorem c2w1 : fraction_to_ggdw c2State.protein_properties c2State.p_total
    [("E", 1)] = .ok [("E", (1:ℚ)/2)] := by
  simp [fraction_to_ggdw, seriesSum, lookupAbundances, lookup?,
    c2State, c1State] <;> norm_num

theorem c2w2 : applyGgdw c2State [("E", (1:ℚ)/2)] = c2St1 := by
  simp [applyGgdw, applyGgdwAux, lookup?, findRxn, setRxnBounds, concSet, hasKey,
    protExId_E, c2State, c2St1, c1State] <;> norm_num

theorem c2w3 : computeScalars c2St1 = (c2St2, none) := by
  simp [computeScalars, concSum, unmeasured, unmeasuredOf, lookupRows,
    tblProdSum, c2St1, c2St2, c2State, c1State] <;> norm_num

theorem c2w4 : constrain_pool c2St2 = (c2St3, none) := by
  simp [constrain_pool, findRxn, setRxnBounds, poolLoop, unmeasured,
    unmeasuredOf, addRxns, removeRxns, strMem, c2St2, c2St3, c2St1, c2State,
    c1State] <;> norm_num

theorem c2w5 : adjust_biomass_composition c2St3 = c2St3 := by
  simp [adjust_biomass_composition, c2St3, c2St2, c2St1, c2State, c1State] <;>
    norm_num

theorem c2_apply : apply_measurements c2State [("E", 1)] = (c2St3, none) := by
  simp only [apply_measurements, c2w1, exceptCase_ok]
  rw [c2w2]
  simp only [c2w3, c2w4, c2w5, optCase_none]

/-- C2 (evaluation at the failing input).  Measuring `E` at full fraction makes
`fm_mass_fraction_matched = 1`, yet `apply_measurements` raises no error: it
assigns `f = fn / (1 - fm)` by unguarded division and carries on through
`constrain_pool`, which writes the resulting adjusted budget into the pool
exchange bounds.  No invalid-configuration condition is signalled anywhere. -/
theorem C2_fm_one_unguarded :
    (apply_measurements c2State [("E", 1)]).2 = none ∧
    (apply_measurements c2State [("E", 1)]).1.fm_mass_fraction_matched = some 1 ∧
    (apply_measurements c2State [("E", 1)]).1.f_mass_fraction_measured_matched_to_total
      ≠ none ∧
    (apply_measurements c2State [("E", 1)]).1.fs_matched_adjusted ≠ none := by
  rw [c2_apply]
  refine ⟨rfl, ?_, ?_, ?_⟩ <;>
    simp [c2St3, c2St2, c2St1, c2State, c1State]

/-! ### C3: fraction_to_ggdw -/

/-- C3.  On a measurement series with positive sum whose every index is in the
reference table, `fraction_to_ggdw` succeeds, its output sums to `p_total`
times the summed reference abundances of the measured enzymes, and rescaling
the input by any positive constant returns the same output.  (The embedded
function is pure by construction: it reads only the series, the table and
`p_total`, and returns a fresh series.) -/
theorem seriesSum_cons (p : String × ℚ) (t : Series) :
    seriesSum (p :: t) = p.2 + seriesSum t := by
  simp [seriesSum]

theorem seriesSum_double_map (l : Series) (a b : ℚ) :
    seriesSum ((l.map (fun p => (p.1, p.2 / a))).map (fun p => (p.1, p.2 * b))) =
      seriesSum l / a * b := by
  induction l with
  | nil => simp [seriesSum]
  | cons h t ih =>
    simp only [List.map_cons, seriesSum_cons] at ih ⊢
    rw [ih]; ring

theorem map_div_scale (l : Series) (c a : ℚ) (hc : c ≠ 0) :
    (l.map (fun p => (p.1, c * p.2))).map (fun p => (p.1, p.2 / (c * a))) =
      l.map (fun p => (p.1, p.2 / a)) := by
  induction l with
  | nil => rfl
  | cons h t ih =>
    simp only [List.map_cons, ih, List.cons.injEq, and_true]
    have := mul_div_mul_left h.2 a hc
    simp [this]

theorem map_scale_fst (l : Series) (c : ℚ) :
    (l.map (fun p : String × ℚ => (p.1, c * p.2))).map Prod.fst = l.map Prod.fst := by
  simp [List.map_map, Function.comp_def]

theorem seriesSum_scale (l : Series) (c : ℚ) :
    seriesSum (l.map (fun p : String × ℚ => (p.1, c * p.2))) = c * seriesSum l := by
  induction l with
  | nil => simp [seriesSum]
  | cons h t ih =>
    simp only [List.map_cons, seriesSum_cons] at ih ⊢
    rw [ih]; ring

theorem C3_fraction_to_ggdw (tbl : PropTable) (p_total : ℚ) (m : Series)
    (hpos : 0 < seriesSum m)
    (hk : ∀ k ∈ m.map Prod.fst, (lookup? tbl k).isSome) :
    ∃ out, fraction_to_ggdw tbl p_total m = .ok out ∧
      seriesSum out = p_total * ((m.map Prod.fst).map (abundanceOf tbl)).sum ∧
      ∀ c : ℚ, 0 < c →
        fraction_to_ggdw tbl p_total (m.map (fun p => (p.1, c * p.2))) = .ok out := by
  have hS : seriesSum m ≠ 0 := ne_of_gt hpos
  have habund := lookupAbundances_ok tbl (m.map Prod.fst) hk
  refine ⟨(m.map (fun p => (p.1, p.2 / seriesSum m))).map
      (fun p => (p.1, p.2 * (p_total * ((m.map Prod.fst).map (abundanceOf tbl)).sum))),
    ?_, ?_, ?_⟩
  · simp only [fraction_to_ggdw, habund, exceptCase]
  · rw [seriesSum_double_map, div_self hS, one_mul]
  · intro c hc
    have hc0 : c ≠ 0 := ne_of_gt hc
    simp only [fraction_to_ggdw, map_scale_fst, habund, seriesSum_scale,
      map_div_scale m c (seriesSum m) hc0, exceptCase]

/-- witness for C3 on a two-enzyme table and series. -/
theorem C3_fraction_to_ggdw_witness :
    (0 < seriesSum [("A", (3 : ℚ)), ("B", 1)]) ∧
    ∃ out, fraction_to_ggdw [("A", ⟨50, 1/2⟩), ("B", ⟨30, 1/4⟩)] (1/2)
        [("A", 3), ("B", 1)] = .ok out ∧
      seriesSum out = (1/2) *
        ((([("A", (3 : ℚ)), ("B", 1)].map Prod.fst)).map
          (abundanceOf [("A", ⟨50, 1/2⟩), ("B", ⟨30, 1/4⟩)])).sum ∧
      ∀ c : ℚ, 0 < c →
        fraction_to_ggdw [("A", ⟨50, 1/2⟩), ("B", ⟨30, 1/4⟩)] (1/2)
          ([("A", (3 : ℚ)), ("B", 1)].map (fun p => (p.1, c * p.2))) = .ok out :=
  ⟨by norm_num [seriesSum],
   C3_fraction_to_ggdw [("A", ⟨50, 1/2⟩), ("B", ⟨30, 1/4⟩)] (1/2)
     [("A", 3), ("B", 1)] (by norm_num [seriesSum]) (by decide)⟩

/-! ### C5: lookup failure before any mutation -/

/-- C5.  When the measurement series names an enzyme absent from the reference
table, `apply_measurements` fails with that `KeyError` inside the
unit-conversion step and returns the input state unchanged: no reaction bound
and no concentration entry has been touched. -/
theorem C5_lookup_failure_atomic (st : GeckoState) (m : Series)
    (hk : ∃ k ∈ m.map Prod.fst, lookup? st.protein_properties k = none) :
    (apply_measurements st m).1 = st ∧
    ∃ k, (apply_measurements st m).2 = some (.keyError k) ∧
      k ∈ m.map Prod.fst ∧ lookup? st.protein_properties k = none := by
  obtain ⟨k, herr, hmem, hnone⟩ := lookupAbundances_err st.protein_properties _ hk
  have hconv : fraction_to_ggdw st.protein_properties st.p_total m =
      .error (.keyError k) := by
    simp only [fraction_to_ggdw, herr, exceptCase]
  refine ⟨?_, k, ?_, hmem, hnone⟩
  · simp only [apply_measurements, hconv, exceptCase]
  · simp only [apply_measurements, hconv, exceptCase]

/-- witness for C5: enzyme `X` is measured but missing from the table. -/
theorem C5_lookup_failure_atomic_witness :
    (∃ k ∈ ([("X", (1 : ℚ))].map Prod.fst),
      lookup? c2State.protein_properties k = none) ∧
    (apply_measurements c2State [("X", 1)]).1 = c2State ∧
    ∃ k, (apply_measurements c2State [("X", 1)]).2 = some (.keyError k) ∧
      k ∈ [("X", (1 : ℚ))].map Prod.fst ∧
      lookup? c2State.protein_properties k = none :=
  ⟨⟨"X", by decide, by decide⟩,
   C5_lookup_failure_atomic c2State [("X", 1)] ⟨"X", by decide, by decide⟩⟩

/-! ### String and pattern lemmas -/

theorem isPre_self (p : List Char) : isPre p p = true := by
  induction p with
  | nil => rfl
  | cons a as ih => simp [isPre, ih]

theorem isPre_append (p t : List Char) : isPre p (p ++ t) = true := by
  induction p with
  | nil => rfl
  | cons a as ih => simp [isPre, ih]

theorem isPre_iff (p : List Char) : ∀ l, isPre p l = true ↔ ∃ t, l = p ++ t := by
  induction p with
  | nil => intro l; simp [isPre]
  | cons a as ih =>
    intro l
    cases l with
    | nil => simp [isPre]
    | cons b bs =>
      simp only [isPre, Bool.and_eq_true, beq_iff_eq, ih bs, List.cons_append,
        List.cons.injEq]
      constructor
      · rintro ⟨rfl, t, rfl⟩; exact ⟨t, rfl, rfl⟩
      · rintro ⟨t, rfl, rfl⟩; exact ⟨rfl, t, rfl⟩

theorem strContains_self (s : String) : strContains s s = true := by
  unfold strContains
  cases h : s.data with
  | nil => simp [occurs, List.isEmpty]
  | cons a t => simp [occurs, isPre_self]

theorem protExId_data (X : String) :
    (protExId X).data = "prot_".data ++ X.data ++ "_exchange".data := rfl

theorem drawId_data (X : String) :
    (drawId X).data = "draw_prot_".data ++ X.data := rfl

theorem protMetId_data (X : String) :
    (protMetId X).data = "prot_".data ++ X.data ++ "_c".data := rfl

theorem protExMatch?_protExId (X : String) :
    protExMatch? (protExId X) = some X := by
  have hdata : (protExId X).data =
      "prot_".data ++ (X.data ++ "_exchange".data) := by
    rw [protExId_data, List.append_assoc]
  have hlen : (protExId X).data.length = X.data.length + 14 := by
    rw [protExId_data]
    simp [List.length_append]
  have hpre : isPre "prot_".data (protExId X).data = true := by
    rw [hdata]; exact isPre_append _ _
  have hsuf : isPre "_exchange".data.reverse (protExId X).data.reverse = true := by
    rw [protExId_data, List.reverse_append]
    exact isPre_append _ _
  have hcond : (isPre "prot_".data (protExId X).data &&
      isPre "_exchange".data.reverse (protExId X).data.reverse &&
      decide (14 ≤ (protExId X).data.length)) = true := by
    rw [hpre, hsuf, hlen]
    simp
  unfold protExMatch?
  rw [if_pos hcond]
  have hd : (protExId X).data.drop 5 = X.data ++ "_exchange".data := by
    rw [hdata, show (5 : ℕ) = ("prot_".data : List Char).length from rfl,
      List.drop_left]
  have h2 : X.data.length + 14 - 14 = X.data.length := by omega
  rw [hlen, hd, h2, List.take_left]

theorem drawMatch?_drawId (X : String) : drawMatch? (drawId X) = some X := by
  have hpre : isPre "draw_prot_".data (drawId X).data = true := by
    rw [drawId_data]; exact isPre_append _ _
  unfold drawMatch?
  rw [if_pos hpre]
  rw [drawId_data, show (10 : ℕ) = ("draw_prot_".data : List Char).length from rfl,
    List.drop_left]

theorem protExMatch?_some {s X : String} (h : protExMatch? s = some X) :
    s = protExId X := by
  unfold protExMatch? at h
  by_cases hc : (isPre "prot_".data s.data &&
      isPre "_exchange".data.reverse s.data.reverse &&
      decide (14 ≤ s.data.length)) = true
  · rw [if_pos hc] at h
    have hXval : X = ⟨(s.data.drop 5).take (s.data.length - 14)⟩ :=
      (Option.some.inj h).symm
    simp only [Bool.and_eq_true, decide_eq_true_eq] at hc
    obtain ⟨⟨hpre, hsuf⟩, hlen⟩ := hc
    obtain ⟨t, hts⟩ := (isPre_iff _ _).mp hpre
    obtain ⟨u, hus⟩ := (isPre_iff _ _).mp hsuf
    have hs : s.data = u.reverse ++ "_exchange".data := by
      have := congrArg List.reverse hus
      simpa using this
    have hlen5 : ("prot_".data : List Char).length = 5 := rfl
    have htlen : s.data.length = 5 + t.length := by
      rw [hts]
      simp
      omega
    have hdrop : s.data.drop 5 = t := by
      rw [hts, ← hlen5, List.drop_left]
    -- the last 9 characters of t are "_exchange"
    have hdrop9 : t.drop (t.length - 9) = "_exchange".data := by
      have hdropu : s.data.drop u.reverse.length = "_exchange".data := by
        conv_lhs => rw [hs]
        exact List.drop_left _ _
      have hulen : u.reverse.length = s.data.length - 9 := by
        have hl := congrArg List.length hs
        simp only [List.length_append, List.length_reverse] at hl
        simp only [List.length_reverse]
        have hl9 : ("_exchange".data : List Char).length = 9 := rfl
        rw [hl9] at hl
        omega
      have h513 : s.data.drop (s.data.length - 9) = "_exchange".data := by
        rw [← hulen]
        exact hdropu
      have harith : s.data.length - 9 = 5 + (t.length - 9) := by omega
      rw [harith, hts] at h513
      rwa [show (5 : ℕ) = ("prot_".data : List Char).length from rfl,
        List.drop_append] at h513
    have ht : t = t.take (t.length - 9) ++ "_exchange".data := by
      conv_lhs => rw [← List.take_append_drop (t.length - 9) t]
      rw [hdrop9]
    have hXdata : X.data = t.take (t.length - 9) := by
      rw [hXval]
      show (s.data.drop 5).take (s.data.length - 14) = _
      rw [hdrop]
      congr 1
      omega
    have : s.data = "prot_".data ++ X.data ++ "_exchange".data := by
      rw [hts, hXdata]
      conv_lhs => rw [ht]
      rw [List.append_assoc]
    have hfin := congrArg String.mk this
    simpa [← protExId_data] using hfin
  · rw [if_neg hc] at h
    exact absurd h (by simp)

theorem drawMatch?_some {s X : String} (h : drawMatch? s = some X) :
    s = drawId X := by
  unfold drawMatch? at h
  by_cases hc : isPre "draw_prot_".data s.data = true
  · rw [if_pos hc] at h
    have hXval : X = ⟨s.data.drop 10⟩ := (Option.some.inj h).symm
    obtain ⟨t, hts⟩ := (isPre_iff _ _).mp hc
    have hdrop : s.data.drop 10 = t := by
      rw [hts, show (10 : ℕ) = ("draw_prot_".data : List Char).length from rfl,
        List.drop_left]
    have : s.data = "draw_prot_".data ++ X.data := by
      rw [hXval]
      show s.data = "draw_prot_".data ++ s.data.drop 10
      rw [hdrop, hts]
    have hfin := congrArg String.mk this
    simpa [← drawId_data] using hfin
  · rw [if_neg hc] at h
    exact absurd h (by simp)

theorem protExMatch?_drawId (X : String) : protExMatch? (drawId X) = none := by
  unfold protExMatch?
  rw [drawId_data]
  simp [isPre]

theorem drawMatch?_protExId (X : String) : drawMatch? (protExId X) = none := by
  unfold drawMatch?
  rw [protExId_data]
  simp [isPre]

theorem drawId_inj {X Y : String} (h : drawId X = drawId Y) : X = Y := by
  have h1 := drawMatch?_drawId X
  rw [h, drawMatch?_drawId] at h1
  exact (Option.some.inj h1).symm

theorem protExId_inj {X Y : String} (h : protExId X = protExId Y) : X = Y := by
  have h1 := protExMatch?_protExId X
  rw [h, protExMatch?_protExId] at h1
  exact (Option.some.inj h1).symm

theorem drawId_ne_protExId (X Y : String) : drawId X ≠ protExId Y := by
  intro h
  have h1 := drawMatch?_drawId X
  rw [h, drawMatch?_protExId] at h1
  exact absurd h1 (by simp)

theorem drawId_ne_pool_exchange (X : String) : drawId X ≠ "prot_pool_exchange" := by
  intro h
  have := congrArg String.data h
  rw [drawId_data] at this
  simp at this

/-! ### Reaction-list and concentration-series lemmas -/

theorem setRxnBounds_ids (rs : List Rxn) (i : String) (a b : ℚ) :
    (setRxnBounds rs i a b).map Rxn.id = rs.map Rxn.id := by
  unfold setRxnBounds
  rw [List.map_map]
  refine List.map_congr_left (fun r _ => ?_)
  by_cases h : r.id = i <;> simp [h]

theorem findRxn_eq_none_iff (rs : List Rxn) (i : String) :
    findRxn rs i = none ↔ i ∉ rs.map Rxn.id := by
  rw [findRxn_eq, List.find?_eq_none]
  simp only [beq_iff_eq, List.mem_map, not_exists, not_and]

theorem findRxn_isSome_iff (rs : List Rxn) (i : String) :
    (findRxn rs i).isSome = true ↔ i ∈ rs.map Rxn.id := by
  cases h : findRxn rs i with
  | none => simp [(findRxn_eq_none_iff rs i).mp h]
  | some r =>
    simp only [Option.isSome_some, true_iff]
    rw [findRxn_eq] at h
    have hmem := List.mem_of_find?_eq_some h
    have hid := List.find?_some h
    rw [beq_iff_eq] at hid
    exact List.mem_map.mpr ⟨r, hmem, hid⟩

theorem findRxn_setRxnBounds (rs : List Rxn) (i j : String) (a b : ℚ) :
    findRxn (setRxnBounds rs i a b) j =
      (findRxn rs j).map
        (fun r => if r.id == i then { r with lb := a, ub := b } else r) := by
  have hfun : ((fun r : Rxn => r.id == j) ∘
      fun r => if r.id == i then { r with lb := a, ub := b } else r) =
      (fun r : Rxn => r.id == j) := by
    funext r
    by_cases h : r.id = i <;> simp [h, Function.comp]
  rw [findRxn_eq, findRxn_eq, setRxnBounds, List.find?_map, hfun]

theorem mem_setRxnBounds {r : Rxn} {rs : List Rxn} {i : String} {a b : ℚ}
    (h : r ∈ setRxnBounds rs i a b) :
    ∃ r₀ ∈ rs, r.id = r₀.id ∧ r.mets = r₀.mets := by
  unfold setRxnBounds at h
  obtain ⟨r₀, hr₀, himg⟩ := List.mem_map.mp h
  refine ⟨r₀, hr₀, ?_, ?_⟩ <;> rw [← himg] <;>
    by_cases hc : r₀.id = i <;> simp [hc]

theorem mem_unmeasuredOf (cs : List (String × Option ℚ)) (X : String) :
    X ∈ unmeasuredOf cs ↔ (X, (none : Option ℚ)) ∈ cs := by
  induction cs with
  | nil => simp [unmeasuredOf]
  | cons p rest ih =>
    obtain ⟨y, w⟩ := p
    cases w with
    | none => simp [unmeasuredOf, ih, eq_comm]
    | some v => simp [unmeasuredOf, ih]

theorem lookup?_mapset_ne {cs : List (String × Option ℚ)} {k x : String} (v : ℚ)
    (h : x ≠ k) :
    lookup? (cs.map (fun p => if p.1 == k then (p.1, some v) else p)) x =
      lookup? cs x := by
  induction cs with
  | nil => rfl
  | cons p rest ih =>
    have ih' : lookup? (rest.map (fun p => if p.1 = k then (p.1, some v) else p)) x =
        lookup? rest x := by
      have := ih
      simp only [beq_iff_eq] at this
      exact this
    cases hp : (p.1 == k) with
    | true =>
      have hp' : p.1 = k := beq_iff_eq.mp hp
      have hpx : (p.1 == x) = false := by
        rw [beq_eq_false_iff_ne, hp']
        exact fun hc => h hc.symm
      simp [lookup?, hp, hpx, ih']
    | false => simp [lookup?, hp, ih']

theorem lookup?_append_ne {cs : List (String × Option ℚ)} {k x : String}
    (w : Option ℚ) (h : x ≠ k) :
    lookup? (cs ++ [(k, w)]) x = lookup? cs x := by
  induction cs with
  | nil =>
    have : (k == x) = false := by
      rw [beq_eq_false_iff_ne]
      exact fun hc => h hc.symm
    simp [lookup?, this]
  | cons p rest ih =>
    simp only [List.cons_append, lookup?]
    have ih2 : lookup? (rest.append [(k, w)]) x = lookup? rest x := ih
    rw [ih2]

theorem lookup?_concSet_ne {cs : List (String × Option ℚ)} {k x : String} (v : ℚ)
    (h : x ≠ k) : lookup? (concSet cs k v) x = lookup? cs x := by
  unfold concSet
  cases hk : hasKey cs k with
  | true =>
    rw [boolCase_true]
    exact lookup?_mapset_ne v h
  | false =>
    rw [boolCase_false]
    exact lookup?_append_ne _ h

theorem mem_none_concSet {cs : List (String × Option ℚ)} {k X : String} {v : ℚ}
    (h : (X, (none : Option ℚ)) ∈ concSet cs k v) :
    (X, (none : Option ℚ)) ∈ cs := by
  unfold concSet at h
  cases hk : hasKey cs k with
  | true =>
    rw [hk, boolCase_true] at h
    obtain ⟨p, hp, himg⟩ := List.mem_map.mp h
    by_cases hc : p.1 = k
    · exfalso
      rw [if_pos (by simpa using hc)] at himg
      have := congrArg Prod.snd himg
      simp at this
    · rw [if_neg (by simpa using hc)] at himg
      exact himg ▸ hp
  | false =>
    rw [hk, boolCase_false] at h
    rcases List.mem_append.mp h with h1 | h1
    · exact h1
    · exfalso
      simp at h1

theorem mem_none_concSet_of_ne {cs : List (String × Option ℚ)} {k X : String}
    {v : ℚ} (hne : X ≠ k) (h : (X, (none : Option ℚ)) ∈ cs) :
    (X, (none : Option ℚ)) ∈ concSet cs k v := by
  unfold concSet
  cases hk : hasKey cs k with
  | true =>
    rw [boolCase_true]
    refine List.mem_map.mpr ⟨(X, none), h, ?_⟩
    rw [if_neg (by simpa using hne)]
  | false =>
    rw [boolCase_false]
    exact List.mem_append.mpr (Or.inl h)

/-! ### applyGgdw lemmas -/

theorem applyGgdwAux_ids (tbl : PropTable) (gw : Series)
    (p : List Rxn × List (String × Option ℚ)) :
    ((applyGgdwAux tbl gw p).1).map Rxn.id = p.1.map Rxn.id := by
  induction gw generalizing p with
  | nil => rfl
  | cons e rest ih =>
    obtain ⟨k, v⟩ := e
    cases hlk : lookup? tbl k with
    | none => simp [applyGgdwAux, hlk, ih]
    | some row =>
      cases hfr : findRxn p.1 (protExId k) with
      | none => simp [applyGgdwAux, hlk, hfr, ih]
      | some r =>
        simp only [applyGgdwAux, hlk, hfr, optCase_some]
        rw [ih]
        exact setRxnBounds_ids _ _ _ _

theorem applyGgdwAux_conc_frame (tbl : PropTable) (gw : Series)
    (p : List Rxn × List (String × Option ℚ)) (x : String)
    (hx : x ∉ gw.map Prod.fst) :
    lookup? (applyGgdwAux tbl gw p).2 x = lookup? p.2 x := by
  induction gw generalizing p with
  | nil => rfl
  | cons e rest ih =>
    obtain ⟨k, v⟩ := e
    have hxk : x ≠ k := by
      intro hc
      exact hx (by simp [hc])
    have hxrest : x ∉ rest.map Prod.fst := by
      intro hc
      exact hx (by simp [hc])
    cases hlk : lookup? tbl k with
    | none => simp [applyGgdwAux, hlk, ih _ hxrest]
    | some row =>
      cases hfr : findRxn p.1 (protExId k) with
      | none => simp [applyGgdwAux, hlk, hfr, ih _ hxrest]
      | some r =>
        simp only [applyGgdwAux, hlk, hfr, optCase_some]
        rw [ih _ hxrest]
        exact lookup?_concSet_ne v hxk

theorem applyGgdwAux_unmeasured_mono (tbl : PropTable) (gw : Series)
    (p : List Rxn × List (String × Option ℚ)) (X : String)
    (hX : (X, (none : Option ℚ)) ∈ (applyGgdwAux tbl gw p).2) :
    (X, (none : Option ℚ)) ∈ p.2 := by
  induction gw generalizing p with
  | nil => exact hX
  | cons e rest ih =>
    obtain ⟨k, v⟩ := e
    cases hlk : lookup? tbl k with
    | none =>
      rw [applyGgdwAux, hlk, optCase_none] at hX
      exact ih _ hX
    | some row =>
      cases hfr : findRxn p.1 (protExId k) with
      | none =>
        rw [applyGgdwAux, hlk, optCase_some, hfr, optCase_none] at hX
        exact ih _ hX
      | some r =>
        rw [applyGgdwAux, hlk, optCase_some, hfr, optCase_some] at hX
        exact mem_none_concSet (ih _ hX)

theorem applyGgdwAux_unmeasured_frame (tbl : PropTable) (gw : Series)
    (p : List Rxn × List (String × Option ℚ)) (X : String)
    (hX : (X, (none : Option ℚ)) ∈ p.2) (hk : X ∉ gw.map Prod.fst) :
    (X, (none : Option ℚ)) ∈ (applyGgdwAux tbl gw p).2 := by
  induction gw generalizing p with
  | nil => exact hX
  | cons e rest ih =>
    obtain ⟨k, v⟩ := e
    have hxk : X ≠ k := by
      intro hc
      exact hk (by simp [hc])
    have hxrest : X ∉ rest.map Prod.fst := by
      intro hc
      exact hk (by simp [hc])
    cases hlk : lookup? tbl k with
    | none =>
      rw [applyGgdwAux, hlk, optCase_none]
      exact ih _ hX hxrest
    | some row =>
      cases hfr : findRxn p.1 (protExId k) with
      | none =>
        rw [applyGgdwAux, hlk, optCase_some, hfr, optCase_none]
        exact ih _ hX hxrest
      | some r =>
        rw [applyGgdwAux, hlk, optCase_some, hfr, optCase_some]
        exact ih _ (mem_none_concSet_of_ne hxk hX) hxrest

theorem fraction_to_ggdw_keys {tbl : PropTable} {pt : ℚ} {m gw : Series}
    (h : fraction_to_ggdw tbl pt m = .ok gw) :
    gw.map Prod.fst = m.map Prod.fst := by
  unfold fraction_to_ggdw at h
  cases habq : lookupAbundances tbl (m.map Prod.fst) with
  | error e => rw [habq] at h; simp at h
  | ok abunds =>
    rw [habq] at h
    simp only [exceptCase_ok, Except.ok.injEq] at h
    rw [← h]
    simp [List.map_map, Function.comp_def]

/-! ### Stage equations and frame lemmas -/

@[simp] theorem applyGgdw_metabolites (st : GeckoState) (gw : Series) :
    (applyGgdw st gw).metabolites = st.metabolites := rfl

@[simp] theorem applyGgdw_biomass (st : GeckoState) (gw : Series) :
    (applyGgdw st gw).biomass_reaction = st.biomass_reaction := rfl

@[simp] theorem applyGgdw_commonPool (st : GeckoState) (gw : Series) :
    (applyGgdw st gw).common_protein_pool = st.common_protein_pool := rfl

@[simp] theorem applyGgdw_poolExId (st : GeckoState) (gw : Series) :
    (applyGgdw st gw).pool_exchange_id = st.pool_exchange_id := rfl

@[simp] theorem applyGgdw_props (st : GeckoState) (gw : Series) :
    (applyGgdw st gw).protein_properties = st.protein_properties := rfl

@[simp] theorem applyGgdw_p_total (st : GeckoState) (gw : Series) :
    (applyGgdw st gw).p_total = st.p_total := rfl

@[simp] theorem applyGgdw_p_base (st : GeckoState) (gw : Series) :
    (applyGgdw st gw).p_base = st.p_base := rfl

@[simp] theorem applyGgdw_sigma (st : GeckoState) (gw : Series) :
    (applyGgdw st gw).sigma_saturation_factor = st.sigma_saturation_factor := rfl

@[simp] theorem applyGgdw_reactions (st : GeckoState) (gw : Series) :
    (applyGgdw st gw).reactions =
      (applyGgdwAux st.protein_properties gw (st.reactions, st.concentrations)).1 := rfl

@[simp] theorem applyGgdw_concentrations (st : GeckoState) (gw : Series) :
    (applyGgdw st gw).concentrations =
      (applyGgdwAux st.protein_properties gw (st.reactions, st.concentrations)).2 := rfl

@[simp] theorem adjust_reactions (st : GeckoState) :
    (adjust_biomass_composition st).reactions = st.reactions := rfl

@[simp] theorem adjust_concentrations (st : GeckoState) :
    (adjust_biomass_composition st).concentrations = st.concentrations := rfl

@[simp] theorem adjust_metabolites (st : GeckoState) :
    (adjust_biomass_composition st).metabolites = st.metabolites := rfl

@[simp] theorem adjust_commonPool (st : GeckoState) :
    (adjust_biomass_composition st).common_protein_pool = st.common_protein_pool := rfl

@[simp] theorem adjust_poolExId (st : GeckoState) :
    (adjust_biomass_composition st).pool_exchange_id = st.pool_exchange_id := rfl

@[simp] theorem adjust_props (st : GeckoState) :
    (adjust_biomass_composition st).protein_properties = st.protein_properties := rfl

@[simp] theorem adjust_p_total (st : GeckoState) :
    (adjust_biomass_composition st).p_total = st.p_total := rfl

@[simp] theorem adjust_p_base (st : GeckoState) :
    (adjust_biomass_composition st).p_base = st.p_base := rfl

@[simp] theorem adjust_sigma (st : GeckoState) :
    (adjust_biomass_composition st).sigma_saturation_factor =
      st.sigma_saturation_factor := rfl

@[simp] theorem adjust_p_measured (st : GeckoState) :
    (adjust_biomass_composition st).p_measured = st.p_measured := rfl

@[simp] theorem adjust_f (st : GeckoState) :
    (adjust_biomass_composition st).f_mass_fraction_measured_matched_to_total =
      st.f_mass_fraction_measured_matched_to_total := rfl

@[simp] theorem adjust_fm (st : GeckoState) :
    (adjust_biomass_composition st).fm_mass_fraction_matched =
      st.fm_mass_fraction_matched := rfl

@[simp] theorem adjust_fs (st : GeckoState) :
    (adjust_biomass_composition st).fs_matched_adjusted = st.fs_matched_adjusted := rfl

theorem computeScalars_ok {st : GeckoState} {rows : List PropRow}
    (h : lookupRows st.protein_properties (unmeasured st) = .ok rows) :
    computeScalars st =
      ({ st with
          p_measured := some (concSum st.concentrations),
          fm_mass_fraction_matched := some (concSum st.concentrations / st.p_total),
          fn_mass_fraction_unmeasured_matched :=
            some ((rows.map (fun r => r.mw * r.abundance)).sum /
              tblProdSum st.protein_properties),
          f_mass_fraction_measured_matched_to_total :=
            some ((rows.map (fun r => r.mw * r.abundance)).sum /
              tblProdSum st.protein_properties /
              (1 - concSum st.concentrations / st.p_total)) }, none) := by
  have harg : unmeasured { st with
      p_measured := some (concSum st.concentrations),
      fm_mass_fraction_matched := some (concSum st.concentrations / st.p_total) } =
      unmeasured st := rfl
  simp only [computeScalars, harg, h, exceptCase_ok]

theorem computeScalars_err {st : GeckoState} {e : PyErr}
    (h : lookupRows st.protein_properties (unmeasured st) = .error e) :
    computeScalars st =
      ({ st with
          p_measured := some (concSum st.concentrations),
          fm_mass_fraction_matched := some (concSum st.concentrations / st.p_total) },
        some e) := by
  have harg : unmeasured { st with
      p_measured := some (concSum st.concentrations),
      fm_mass_fraction_matched := some (concSum st.concentrations / st.p_total) } =
      unmeasured st := rfl
  simp only [computeScalars, harg, h, exceptCase_error]

/-! ### poolLoop lemmas -/

theorem poolLoop_err {rs : List Rxn} {ms : List Met} {cp : Met} {tbl : PropTable}
    {ks : List String}
    (h : ∃ k ∈ ks, findRxn rs (drawId k) = none ∧ findMet ms (protMetId k) = none) :
    ∀ tr nw, ∃ e, poolLoop rs ms cp tbl ks tr nw = .error (.keyError e) := by
  induction ks with
  | nil => simp at h
  | cons k rest ih =>
    intro tr nw
    obtain ⟨k₀, hk₀, hd₀, hm₀⟩ := h
    rcases List.mem_cons.mp hk₀ with rfl | hmem
    · rw [poolLoop, hd₀]
      simp only [Option.isSome_none, Bool.false_eq_true, if_false, hm₀, optCase_none]
      exact ⟨protMetId k₀, rfl⟩
    · cases hd : findRxn rs (drawId k) with
      | some r =>
        rw [poolLoop, hd]
        simp only [Option.isSome_some, if_true]
        exact ih ⟨k₀, hmem, hd₀, hm₀⟩ _ _
      | none =>
        rw [poolLoop, hd]
        simp only [Option.isSome_none, Bool.false_eq_true, if_false]
        cases hm : findMet ms (protMetId k) with
        | none => exact ⟨protMetId k, by simp [hm]⟩
        | some met =>
          simp only [optCase_some]
          exact ih ⟨k₀, hmem, hd₀, hm₀⟩ _ _

theorem poolLoop_toRemove_sound {rs : List Rxn} {ms : List Met} {cp : Met}
    {tbl : PropTable} {ks : List String} {tr nw : List Rxn}
    {out : List Rxn × List Rxn}
    (h : poolLoop rs ms cp tbl ks tr nw = .ok out) :
    ∀ r ∈ out.1, r ∈ tr ∨ ∃ k ∈ ks, r ∈ rs ∧ strContains r.id (protExId k) = true := by
  induction ks generalizing tr nw with
  | nil =>
    rw [poolLoop] at h
    intro r hr
    left
    have hout : out = (tr, nw) := by
      have := Except.ok.inj h
      exact this.symm
    rw [hout] at hr
    exact hr
  | cons k rest ih =>
    intro r hr
    have hq : ∀ r₀ ∈ tr ++ queryRxns rs (protExId k),
        r₀ ∈ tr ∨ ∃ k₁ ∈ k :: rest, r₀ ∈ rs ∧ strContains r₀.id (protExId k₁) = true := by
      intro r₀ hr₀
      rcases List.mem_append.mp hr₀ with h1 | h1
      · exact Or.inl h1
      · right
        rw [queryRxns_eq] at h1
        have := List.mem_filter.mp h1
        exact ⟨k, by simp, this.1, this.2⟩
    rw [poolLoop] at h
    cases hd : findRxn rs (drawId k) with
    | some r₀ =>
      rw [hd] at h
      simp only [Option.isSome_some, if_true] at h
      rcases ih h r hr with h1 | ⟨k₁, hk₁, hmem, hc⟩
      · rcases hq r h1 with h2 | h2
        · exact Or.inl h2
        · exact Or.inr h2
      · exact Or.inr ⟨k₁, by simp [hk₁], hmem, hc⟩
    | none =>
      rw [hd] at h
      simp only [Option.isSome_none, Bool.false_eq_true, if_false] at h
      cases hm : findMet ms (protMetId k) with
      | none => rw [hm, optCase_none] at h; exact absurd h (by simp)
      | some met =>
        rw [hm, optCase_some] at h
        rcases ih h r hr with h1 | ⟨k₁, hk₁, hmem, hc⟩
        · rcases hq r h1 with h2 | h2
          · exact Or.inl h2
          · exact Or.inr h2
        · exact Or.inr ⟨k₁, by simp [hk₁], hmem, hc⟩

theorem poolLoop_toRemove_complete {rs : List Rxn} {ms : List Met} {cp : Met}
    {tbl : PropTable} {ks : List String} {tr nw : List Rxn}
    {out : List Rxn × List Rxn}
    (h : poolLoop rs ms cp tbl ks tr nw = .ok out) :
    (∀ r ∈ tr, r ∈ out.1) ∧
    ∀ k ∈ ks, ∀ r ∈ rs, strContains r.id (protExId k) = true → r ∈ out.1 := by
  induction ks generalizing tr nw with
  | nil =>
    rw [poolLoop] at h
    have hout : out = (tr, nw) := (Except.ok.inj h).symm
    rw [hout]
    exact ⟨fun r hr => hr, by simp⟩
  | cons k rest ih =>
    rw [poolLoop] at h
    have hnext : ∀ {tr₁ nw₁}, poolLoop rs ms cp tbl rest tr₁ nw₁ = .ok out →
        (∀ r ∈ tr₁, r ∈ out.1) ∧
        ∀ k₁ ∈ rest, ∀ r ∈ rs, strContains r.id (protExId k₁) = true → r ∈ out.1 :=
      fun h => ih h
    have step : ∀ {tr₁ nw₁}, poolLoop rs ms cp tbl rest tr₁ nw₁ = .ok out →
        tr₁ = tr ++ queryRxns rs (protExId k) →
        (∀ r ∈ tr, r ∈ out.1) ∧
        ∀ k₁ ∈ k :: rest, ∀ r ∈ rs, strContains r.id (protExId k₁) = true →
          r ∈ out.1 := by
      intro tr₁ nw₁ hrec htr₁
      obtain ⟨hin, hks⟩ := hnext hrec
      subst htr₁
      refine ⟨fun r hr => hin r (List.mem_append.mpr (Or.inl hr)), ?_⟩
      intro k₁ hk₁ r hmem hc
      rcases List.mem_cons.mp hk₁ with rfl | hk₂
      · refine hin r (List.mem_append.mpr (Or.inr ?_))
        rw [queryRxns_eq]
        exact List.mem_filter.mpr ⟨hmem, hc⟩
      · exact hks k₁ hk₂ r hmem hc
    cases hd : findRxn rs (drawId k) with
    | some r₀ =>
      rw [hd] at h
      simp only [Option.isSome_some, if_true] at h
      exact step h rfl
    | none =>
      rw [hd] at h
      simp only [Option.isSome_none, Bool.false_eq_true, if_false] at h
      cases hm : findMet ms (protMetId k) with
      | none => rw [hm, optCase_none] at h; exact absurd h (by simp)
      | some met =>
        rw [hm, optCase_some] at h
        exact step h rfl

theorem poolLoop_new_sound {rs : List Rxn} {ms : List Met} {cp : Met}
    {tbl : PropTable} {ks : List String} {tr nw : List Rxn}
    {out : List Rxn × List Rxn}
    (h : poolLoop rs ms cp tbl ks tr nw = .ok out) :
    ∀ r ∈ out.2, r ∈ nw ∨ ∃ k ∈ ks, ∃ met,
      findRxn rs (drawId k) = none ∧ findMet ms (protMetId k) = some met ∧
      r = mkDraw cp k met (mmwOf tbl k) := by
  induction ks generalizing tr nw with
  | nil =>
    rw [poolLoop] at h
    have hout : out = (tr, nw) := (Except.ok.inj h).symm
    intro r hr
    rw [hout] at hr
    exact Or.inl hr
  | cons k rest ih =>
    intro r hr
    rw [poolLoop] at h
    cases hd : findRxn rs (drawId k) with
    | some r₀ =>
      rw [hd] at h
      simp only [Option.isSome_some, if_true] at h
      rcases ih h r hr with h1 | ⟨k₁, hk₁, met, hh⟩
      · exact Or.inl h1
      · exact Or.inr ⟨k₁, by simp [hk₁], met, hh⟩
    | none =>
      rw [hd] at h
      simp only [Option.isSome_none, Bool.false_eq_true, if_false] at h
      cases hm : findMet ms (protMetId k) with
      | none => rw [hm, optCase_none] at h; exact absurd h (by simp)
      | some met =>
        rw [hm, optCase_some] at h
        rcases ih h r hr with h1 | ⟨k₁, hk₁, met₁, hh⟩
        · rcases List.mem_append.mp h1 with h2 | h2
          · exact Or.inl h2
          · right
            refine ⟨k, by simp, met, hd, hm, ?_⟩
            simpa using h2
        · exact Or.inr ⟨k₁, by simp [hk₁], met₁, hh⟩

theorem poolLoop_new_complete {rs : List Rxn} {ms : List Met} {cp : Met}
    {tbl : PropTable} {ks : List String} {tr nw : List Rxn}
    {out : List Rxn × List Rxn}
    (h : poolLoop rs ms cp tbl ks tr nw = .ok out) :
    (∀ r ∈ nw, r ∈ out.2) ∧
    ∀ k ∈ ks, findRxn rs (drawId k) = none →
      ∃ met, findMet ms (protMetId k) = some met ∧
        mkDraw cp k met (mmwOf tbl k) ∈ out.2 := by
  induction ks generalizing tr nw with
  | nil =>
    rw [poolLoop] at h
    have hout : out = (tr, nw) := (Except.ok.inj h).symm
    rw [hout]
    exact ⟨fun r hr => hr, by simp⟩
  | cons k rest ih =>
    rw [poolLoop] at h
    cases hd : findRxn rs (drawId k) with
    | some r₀ =>
      rw [hd] at h
      simp only [Option.isSome_some, if_true] at h
      obtain ⟨hin, hks⟩ := ih h
      refine ⟨hin, ?_⟩
      intro k₁ hk₁ hd₁
      rcases List.mem_cons.mp hk₁ with rfl | hk₂
      · rw [hd₁] at hd; exact absurd hd (by simp)
      · exact hks k₁ hk₂ hd₁
    | none =>
      rw [hd] at h
      simp only [Option.isSome_none, Bool.false_eq_true, if_false] at h
      cases hm : findMet ms (protMetId k) with
      | none => rw [hm, optCase_none] at h; exact absurd h (by simp)
      | some met =>
        rw [hm, optCase_some] at h
        obtain ⟨hin, hks⟩ := ih h
        refine ⟨fun r hr => hin r (List.mem_append.mpr (Or.inl hr)), ?_⟩
        intro k₁ hk₁ hd₁
        rcases List.mem_cons.mp hk₁ with rfl | hk₂
        · exact ⟨met, hm, hin _ (List.mem_append.mpr (Or.inr (by simp)))⟩
        · exact hks k₁ hk₂ hd₁

theorem poolLoop_noop {rs : List Rxn} {ms : List Met} {cp : Met} {tbl : PropTable}
    {ks : List String}
    (h : ∀ k ∈ ks, queryRxns rs (protExId k) = [] ∧
      (findRxn rs (drawId k)).isSome = true) :
    ∀ tr nw, poolLoop rs ms cp tbl ks tr nw = .ok (tr, nw) := by
  induction ks with
  | nil => intro tr nw; rfl
  | cons k rest ih =>
    intro tr nw
    obtain ⟨hq, hd⟩ := h k (by simp)
    rw [poolLoop, hq, hd]
    simp only [List.append_nil, if_true]
    exact ih (fun k₁ hk₁ => h k₁ (by simp [hk₁])) _ _

/-! ### constrain_pool and apply_measurements stage equations -/

theorem constrain_pool_ok {st : GeckoState} {pm f : ℚ} {r0 : Rxn}
    {out : List Rxn × List Rxn}
    (hpm : st.p_measured = some pm)
    (hf : st.f_mass_fraction_measured_matched_to_total = some f)
    (hr : findRxn st.reactions "prot_pool_exchange" = some r0)
    (hl : poolLoop
        (setRxnBounds st.reactions "prot_pool_exchange" 0
          ((st.p_total - pm) / st.p_base * f * st.sigma_saturation_factor))
        st.metabolites st.common_protein_pool st.protein_properties
        (unmeasuredOf st.concentrations) [] [] = .ok out) :
    constrain_pool st =
      ({ st with
          fs_matched_adjusted :=
            some ((st.p_total - pm) / st.p_base * f * st.sigma_saturation_factor),
          reactions := removeRxns
            (addRxns (setRxnBounds st.reactions "prot_pool_exchange" 0
                ((st.p_total - pm) / st.p_base * f * st.sigma_saturation_factor))
              out.2)
            (out.1.map (fun r => r.id)) }, none) := by
  simp only [constrain_pool, hpm, hf, optCase_some, hr, unmeasured, hl,
    exceptCase_ok]

theorem constrain_pool_err {st : GeckoState} {pm f : ℚ} {r0 : Rxn} {e : PyErr}
    (hpm : st.p_measured = some pm)
    (hf : st.f_mass_fraction_measured_matched_to_total = some f)
    (hr : findRxn st.reactions "prot_pool_exchange" = some r0)
    (hl : poolLoop
        (setRxnBounds st.reactions "prot_pool_exchange" 0
          ((st.p_total - pm) / st.p_base * f * st.sigma_saturation_factor))
        st.metabolites st.common_protein_pool st.protein_properties
        (unmeasuredOf st.concentrations) [] [] = .error e) :
    constrain_pool st =
      ({ st with
          fs_matched_adjusted :=
            some ((st.p_total - pm) / st.p_base * f * st.sigma_saturation_factor),
          reactions := setRxnBounds st.reactions "prot_pool_exchange" 0
            ((st.p_total - pm) / st.p_base * f * st.sigma_saturation_factor) },
        some e) := by
  simp only [constrain_pool, hpm, hf, optCase_some, hr, unmeasured, hl,
    exceptCase_error]

theorem apply_measurements_ok {st : GeckoState} {m gw : Series}
    {st2 st3 : GeckoState}
    (h1 : fraction_to_ggdw st.protein_properties st.p_total m = .ok gw)
    (h2 : computeScalars (applyGgdw st gw) = (st2, none))
    (h3 : constrain_pool st2 = (st3, none)) :
    apply_measurements st m = (adjust_biomass_composition st3, none) := by
  simp only [apply_measurements, h1, exceptCase_ok, h2, h3, optCase_none]

theorem apply_measurements_err3 {st : GeckoState} {m gw : Series}
    {st2 st3 : GeckoState} {e : PyErr}
    (h1 : fraction_to_ggdw st.protein_properties st.p_total m = .ok gw)
    (h2 : computeScalars (applyGgdw st gw) = (st2, none))
    (h3 : constrain_pool st2 = (st3, some e)) :
    apply_measurements st m = (st3, some e) := by
  simp only [apply_measurements, h1, exceptCase_ok, h2, h3, optCase_none,
    optCase_some]

theorem apply_measurements_err2 {st : GeckoState} {m gw : Series}
    {st2 : GeckoState} {e : PyErr}
    (h1 : fraction_to_ggdw st.protein_properties st.p_total m = .ok gw)
    (h2 : computeScalars (applyGgdw st gw) = (st2, some e)) :
    apply_measurements st m = (st2, some e) := by
  simp only [apply_measurements, h1, exceptCase_ok, h2, optCase_some]

/-! ### More reaction-list helpers -/

theorem findRxn_id_of_some {rs : List Rxn} {i : String} {r : Rxn}
    (h : findRxn rs i = some r) : r.id = i ∧ r ∈ rs := by
  rw [findRxn_eq] at h
  have h1 := List.find?_some h
  exact ⟨by simpa using h1, List.mem_of_find?_eq_some h⟩

theorem findRxn_addRxns_left {L new : List Rxn} {j : String} {r : Rxn}
    (h : findRxn L j = some r) : findRxn (addRxns L new) j = some r := by
  rw [findRxn_eq] at h ⊢
  unfold addRxns
  rw [List.find?_append, h]
  rfl

theorem findRxn_removeRxns_not_mem {L : List Rxn} {ids : List String} {j : String}
    (hj : strMem ids j = false) :
    findRxn (removeRxns L ids) j = findRxn L j := by
  rw [removeRxns_eq, findRxn_eq, findRxn_eq, List.find?_filter]
  congr 1
  funext r
  by_cases hr : r.id = j
  · simp [hr, hj]
  · simp [hr]

theorem mem_removeRxns {r : Rxn} {L : List Rxn} {ids : List String} :
    r ∈ removeRxns L ids ↔ r ∈ L ∧ strMem ids r.id = false := by
  rw [removeRxns_eq, List.mem_filter]
  simp

theorem mem_addRxns {r : Rxn} {L new : List Rxn} :
    r ∈ addRxns L new ↔ r ∈ L ∨ r ∈ new := List.mem_append

theorem removeRxns_nil (L : List Rxn) : removeRxns L [] = L := by
  rw [removeRxns_eq]
  exact List.filter_eq_self.mpr (fun r _ => by simp [strMem])

theorem addRxns_nil (L : List Rxn) : addRxns L [] = L := List.append_nil L

theorem setRxnBounds_idem (rs : List Rxn) (i : String) (a b : ℚ) :
    setRxnBounds (setRxnBounds rs i a b) i a b = setRxnBounds rs i a b := by
  unfold setRxnBounds
  rw [List.map_map]
  refine List.map_congr_left (fun r _ => ?_)
  by_cases h : r.id = i <;> simp [h, Function.comp]

theorem setRxnBounds_append (L M : List Rxn) (i : String) (a b : ℚ) :
    setRxnBounds (L ++ M) i a b = setRxnBounds L i a b ++ setRxnBounds M i a b :=
  List.map_append _ _ _

theorem setRxnBounds_removeRxns (L : List Rxn) (ids : List String) (i : String)
    (a b : ℚ) :
    setRxnBounds (removeRxns L ids) i a b = removeRxns (setRxnBounds L i a b) ids := by
  rw [removeRxns_eq, removeRxns_eq, setRxnBounds, setRxnBounds, List.filter_map]
  refine congrArg _ (List.filter_congr fun r _ => ?_)
  by_cases h : r.id = i <;> simp [h, Function.comp]

theorem setRxnBounds_no_match {L : List Rxn} {i : String} (a b : ℚ)
    (h : ∀ r ∈ L, r.id ≠ i) : setRxnBounds L i a b = L := by
  unfold setRxnBounds
  have : ∀ r ∈ L, (if r.id == i then { r with lb := a, ub := b } else r) = r := by
    intro r hr
    rw [if_neg (by simpa using h r hr)]
  calc L.map _ = L.map id := List.map_congr_left (fun r hr => this r hr)
    _ = L := List.map_id L

theorem state_eta_fs_reactions (st : GeckoState) (x : Option ℚ) (rs : List Rxn)
    (h1 : st.fs_matched_adjusted = x) (h2 : st.reactions = rs) :
    ({ st with fs_matched_adjusted := x, reactions := rs }) = st := by
  cases st
  dsimp at h1 h2 ⊢
  rw [← h1, ← h2]

/-- inversion of a successful `constrain_pool` call: the scalars were set, the
pool exchange was found, the per-enzyme loop succeeded, and the result state is
the stage-equation record. -/
theorem constrain_pool_none_inv {st st' : GeckoState}
    (h : constrain_pool st = (st', none)) :
    ∃ pm f r0 out,
      st.p_measured = some pm ∧
      st.f_mass_fraction_measured_matched_to_total = some f ∧
      findRxn st.reactions "prot_pool_exchange" = some r0 ∧
      poolLoop
        (setRxnBounds st.reactions "prot_pool_exchange" 0
          ((st.p_total - pm) / st.p_base * f * st.sigma_saturation_factor))
        st.metabolites st.common_protein_pool st.protein_properties
        (unmeasuredOf st.concentrations) [] [] = .ok out ∧
      st' = { st with
          fs_matched_adjusted :=
            some ((st.p_total - pm) / st.p_base * f * st.sigma_saturation_factor),
          reactions := removeRxns
            (addRxns (setRxnBounds st.reactions "prot_pool_exchange" 0
                ((st.p_total - pm) / st.p_base * f * st.sigma_saturation_factor))
              out.2)
            (out.1.map (fun r => r.id)) } := by
  cases hpm : st.p_measured with
  | none =>
    simp only [constrain_pool, hpm, optCase_none, Prod.mk.injEq] at h
    exact absurd h.2 (by simp)
  | some pm =>
    cases hf : st.f_mass_fraction_measured_matched_to_total with
    | none =>
      simp only [constrain_pool, hpm, hf, optCase_some, optCase_none,
        Prod.mk.injEq] at h
      exact absurd h.2 (by simp)
    | some f =>
      cases hr : findRxn st.reactions "prot_pool_exchange" with
      | none =>
        simp only [constrain_pool, hpm, hf, optCase_some, hr, optCase_none,
          Prod.mk.injEq] at h
        exact absurd h.2 (by simp)
      | some r0 =>
        cases hl : poolLoop
            (setRxnBounds st.reactions "prot_pool_exchange" 0
              ((st.p_total - pm) / st.p_base * f * st.sigma_saturation_factor))
            st.metabolites st.common_protein_pool st.protein_properties
            (unmeasuredOf st.concentrations) [] [] with
        | error e =>
          rw [constrain_pool_err hpm hf hr hl] at h
          simp at h
        | ok out =>
          rw [constrain_pool_ok hpm hf hr hl] at h
          have h1 := ((Prod.mk.injEq _ _ _ _).mp h).1
          rw [hpm, hf] at h1
          exact ⟨pm, f, r0, out, rfl, rfl, rfl, hl, h1.symm⟩

theorem mem_setRxnBounds_of_ne {r : Rxn} {rs : List Rxn} {i : String} (a b : ℚ)
    (hr : r ∈ rs) (hne : r.id ≠ i) : r ∈ setRxnBounds rs i a b := by
  unfold setRxnBounds
  have h := List.mem_map_of_mem
    (fun r : Rxn => if r.id == i then { r with lb := a, ub := b } else r) hr
  have h2 : (if (r.id == i) = true then { r with lb := a, ub := b } else r) ∈
      List.map (fun r : Rxn => if r.id == i then { r with lb := a, ub := b } else r)
        rs := h
  rwa [if_neg (by simpa using hne)] at h2

/-! ### C7: the created draw reactions -/

/-- C7.  When `constrain_pool` succeeds, every enzyme that was unmeasured and
had no existing draw reaction gets a draw reaction in the result whose
stoichiometry is exactly `{common pool: -mmw, protein metabolite: +1}`, where
`mmw` is the table molecular weight over 1000 when the enzyme has a table row
and the table-average molecular weight over 1000 otherwise. -/
theorem C7_draw_reaction (st st' : GeckoState) (X : String)
    (h : constrain_pool st = (st', none)) (hX : X ∈ unmeasured st)
    (hnd : findRxn st.reactions (drawId X) = none) :
    ∃ met, findMet st.metabolites (protMetId X) = some met ∧
      (∃ r ∈ st'.reactions, r.id = drawId X ∧
        r.mets = [(st.common_protein_pool, -(mmwOf st.protein_properties X)),
                  (met, (1 : ℚ))]) ∧
      (∀ row, lookup? st.protein_properties X = some row →
        mmwOf st.protein_properties X = row.mw / 1000) ∧
      (lookup? st.protein_properties X = none →
        mmwOf st.protein_properties X = tblMeanMw st.protein_properties / 1000) := by
  obtain ⟨pm, f, r0, out, hpm, hf, hr, hl, hst'⟩ := constrain_pool_none_inv h
  have hX' : X ∈ unmeasuredOf st.concentrations := hX
  have hnd' : findRxn (setRxnBounds st.reactions "prot_pool_exchange" 0
      ((st.p_total - pm) / st.p_base * f * st.sigma_saturation_factor))
      (drawId X) = none := by
    rw [findRxn_setRxnBounds, hnd]; rfl
  obtain ⟨met, hm, hmem⟩ := (poolLoop_new_complete hl).2 X hX' hnd'
  refine ⟨met, hm, ?_, ?_, ?_⟩
  · refine ⟨mkDraw st.common_protein_pool X met (mmwOf st.protein_properties X),
      ?_, rfl, rfl⟩
    rw [hst']
    show mkDraw st.common_protein_pool X met (mmwOf st.protein_properties X) ∈
      removeRxns
        (addRxns (setRxnBounds st.reactions "prot_pool_exchange" 0
            ((st.p_total - pm) / st.p_base * f * st.sigma_saturation_factor))
          out.2)
        (out.1.map (fun r => r.id))
    refine mem_removeRxns.mpr ⟨mem_addRxns.mpr (Or.inr hmem), ?_⟩
    cases hsm : strMem (out.1.map (fun r => r.id))
        (mkDraw st.common_protein_pool X met (mmwOf st.protein_properties X)).id with
    | false => rfl
    | true =>
      exfalso
      have hmm : drawId X ∈ out.1.map (fun r => r.id) := (strMem_iff _ _).mp hsm
      obtain ⟨r, hrout, hrid⟩ := List.mem_map.mp hmm
      have hrid' : r.id = drawId X := hrid
      rcases poolLoop_toRemove_sound hl r hrout with h0 | ⟨k, _, hrs, _⟩
      · exact List.not_mem_nil r h0
      · have hid : r.id ∈ (setRxnBounds st.reactions "prot_pool_exchange" 0
            ((st.p_total - pm) / st.p_base * f * st.sigma_saturation_factor)).map
            Rxn.id := List.mem_map_of_mem _ hrs
        rw [setRxnBounds_ids, hrid'] at hid
        exact (findRxn_eq_none_iff st.reactions (drawId X)).mp hnd hid
  · intro row hrow
    simp [mmwOf, hrow]
  · intro hn
    simp [mmwOf, hn]

/-- state for exercising `constrain_pool` directly: one unmeasured enzyme `E`
with a table row, its protein metabolite present, no draw reaction yet, and
the scalar fields already assigned. -/
def w6State : GeckoState :=
  { c2State with
    reactions := [{ id := "prot_pool_exchange", lb := 0, ub := 1000,
                    mets := [(⟨"prot_pool", ""⟩, 1)] }],
    metabolites := [⟨"prot_E_c", ""⟩],
    p_measured := some 0,
    f_mass_fraction_measured_matched_to_total := some 1 }

/-- result state of `constrain_pool w6State`: the pool exchange is re-bounded
to `(0, (1/2 - 0) / (1/4) * 1 * (1/2)) = (0, 1)` and the draw reaction for `E`
is created with `mmw = 50 / 1000`. -/
def w6State' : GeckoState :=
  { w6State with
    fs_matched_adjusted := some 1,
    reactions := [{ id := "prot_pool_exchange", lb := 0, ub := 1,
                    mets := [(⟨"prot_pool", ""⟩, 1)] },
                  { id := "draw_prot_E", lb := 0, ub := 1000,
                    mets := [(⟨"prot_pool", ""⟩, -(1/20)), (⟨"prot_E_c", ""⟩, 1)] }] }

theorem w6eval : constrain_pool w6State = (w6State', none) := by
  simp [constrain_pool, findRxn, setRxnBounds, poolLoop, unmeasured, unmeasuredOf,
    queryRxns, strContains, occurs, isPre, findMet, mkDraw, mmwOf, lookup?,
    tblMeanMw, addRxns, removeRxns, strMem, drawId, protExId, protMetId,
    w6State, w6State', c2State, c1State] <;> norm_num

/-- witness for C7 at the concrete state: the hypotheses hold and the draw
reaction for `E` exists with the table-weight stoichiometry. -/
theorem C7_draw_reaction_witness :
    (constrain_pool w6State = (w6State', none) ∧ "E" ∈ unmeasured w6State ∧
      findRxn w6State.reactions (drawId "E") = none) ∧
    (∃ met, findMet w6State.metabolites (protMetId "E") = some met ∧
      (∃ r ∈ w6State'.reactions, r.id = drawId "E" ∧
        r.mets = [(w6State.common_protein_pool,
                    -(mmwOf w6State.protein_properties "E")),
                  (met, (1 : ℚ))]) ∧
      (∀ row, lookup? w6State.protein_properties "E" = some row →
        mmwOf w6State.protein_properties "E" = row.mw / 1000) ∧
      (lookup? w6State.protein_properties "E" = none →
        mmwOf w6State.protein_properties "E" =
          tblMeanMw w6State.protein_properties / 1000)) :=
  ⟨⟨w6eval, by decide, by decide⟩,
   C7_draw_reaction w6State w6State' "E" w6eval (by decide) (by decide)⟩

/-! ### C6: idempotence of constrain_pool -/

/-- a state on which `constrain_pool` is a fixed point: the scalars are
assigned, the pool bounds are already in place, and the per-enzyme loop finds
nothing to remove and nothing to create. -/
theorem constrain_pool_stable {st₁ : GeckoState} {pm f : ℚ} {r0 : Rxn}
    (hpm : st₁.p_measured = some pm)
    (hf : st₁.f_mass_fraction_measured_matched_to_total = some f)
    (hfs : st₁.fs_matched_adjusted =
      some ((st₁.p_total - pm) / st₁.p_base * f * st₁.sigma_saturation_factor))
    (hr : findRxn st₁.reactions "prot_pool_exchange" = some r0)
    (hset : setRxnBounds st₁.reactions "prot_pool_exchange" 0
        ((st₁.p_total - pm) / st₁.p_base * f * st₁.sigma_saturation_factor) =
      st₁.reactions)
    (hnoop : ∀ k ∈ unmeasuredOf st₁.concentrations,
      queryRxns st₁.reactions (protExId k) = [] ∧
      (findRxn st₁.reactions (drawId k)).isSome = true) :
    constrain_pool st₁ = (st₁, none) := by
  have hl : poolLoop
      (setRxnBounds st₁.reactions "prot_pool_exchange" 0
        ((st₁.p_total - pm) / st₁.p_base * f * st₁.sigma_saturation_factor))
      st₁.metabolites st₁.common_protein_pool st₁.protein_properties
      (unmeasuredOf st₁.concentrations) [] [] =
      .ok (([], []) : List Rxn × List Rxn) := by
    rw [hset]
    exact poolLoop_noop hnoop [] []
  rw [constrain_pool_ok hpm hf hr hl]
  have hfinal : ({ st₁ with
      fs_matched_adjusted :=
        some ((st₁.p_total - pm) / st₁.p_base * f * st₁.sigma_saturation_factor),
      reactions := removeRxns
        (addRxns (setRxnBounds st₁.reactions "prot_pool_exchange" 0
            ((st₁.p_total - pm) / st₁.p_base * f * st₁.sigma_saturation_factor))
          (([], []) : List Rxn × List Rxn).2)
        ((([], []) : List Rxn × List Rxn).1.map (fun r => r.id)) }) = st₁ := by
    apply state_eta_fs_reactions
    · exact hfs
    · show st₁.reactions = removeRxns
        (addRxns (setRxnBounds st₁.reactions "prot_pool_exchange" 0
          ((st₁.p_total - pm) / st₁.p_base * f * st₁.sigma_saturation_factor)) [])
        []
      rw [addRxns_nil, removeRxns_nil, hset]
  rw [hfinal]

/-- C6 (amended).  A second `constrain_pool` call is the identity provided the
substring-query removal is not degenerate: no unmeasured enzyme's exchange-id
pattern occurs inside the pool exchange id (which would remove the pool
exchange itself), and no unmeasured enzyme's exchange-id pattern occurs inside
another unmeasured enzyme's draw id (which would remove a freshly created draw
reaction on the second call).  The unqualified claim is refuted by
`C6_counterexample`. -/
theorem C6_constrain_pool_idempotent (st st₁ : GeckoState)
    (h : constrain_pool st = (st₁, none))
    (h1 : ∀ X ∈ unmeasured st,
      strContains "prot_pool_exchange" (protExId X) = false)
    (h2 : ∀ X ∈ unmeasured st, ∀ Y ∈ unmeasured st,
      strContains (drawId Y) (protExId X) = false) :
    constrain_pool st₁ = (st₁, none) := by
  obtain ⟨pm, f, r0, out, hpm, hf, hr, hl, hst'⟩ := constrain_pool_none_inv h
  have hpm₁ : st₁.p_measured = some pm := by rw [hst']; exact hpm
  have hf₁ : st₁.f_mass_fraction_measured_matched_to_total = some f := by
    rw [hst']; exact hf
  have hproj : (st₁.p_total - pm) / st₁.p_base * f * st₁.sigma_saturation_factor =
      (st.p_total - pm) / st.p_base * f * st.sigma_saturation_factor := by
    rw [hst']
  have hfs₁ : st₁.fs_matched_adjusted =
      some ((st₁.p_total - pm) / st₁.p_base * f * st₁.sigma_saturation_factor) := by
    rw [hproj, hst']
  have hre : st₁.reactions = removeRxns
      (addRxns (setRxnBounds st.reactions "prot_pool_exchange" 0
          ((st.p_total - pm) / st.p_base * f * st.sigma_saturation_factor))
        out.2)
      (out.1.map (fun r => r.id)) := by
    rw [hst']
  have hcs : st₁.concentrations = st.concentrations := by rw [hst']
  -- every removed id is the id of a matching reaction of the original model
  have hidsF : ∀ i, strMem (out.1.map (fun r => r.id)) i = true →
      ∃ k ∈ unmeasuredOf st.concentrations,
        i ∈ st.reactions.map Rxn.id ∧ strContains i (protExId k) = true := by
    intro i hi
    obtain ⟨r, hrout, hrid⟩ := List.mem_map.mp ((strMem_iff _ _).mp hi)
    have hrid' : r.id = i := hrid
    rcases poolLoop_toRemove_sound hl r hrout with h0 | ⟨k, hk, hrs, hc⟩
    · exact absurd h0 (List.not_mem_nil r)
    · refine ⟨k, hk, ?_, hrid' ▸ hc⟩
      have hmm := List.mem_map_of_mem Rxn.id hrs
      rw [setRxnBounds_ids] at hmm
      rwa [hrid'] at hmm
  -- the pool exchange id is never removed
  have hpool_not : strMem (out.1.map (fun r => r.id)) "prot_pool_exchange" = false := by
    cases hsm : strMem (out.1.map (fun r => r.id)) "prot_pool_exchange" with
    | false => rfl
    | true =>
      exfalso
      obtain ⟨k, hk, _, hc⟩ := hidsF _ hsm
      rw [h1 k hk] at hc
      exact Bool.false_ne_true hc
  -- no draw id is ever removed
  have hdraw_not : ∀ Y ∈ unmeasuredOf st.concentrations,
      strMem (out.1.map (fun r => r.id)) (drawId Y) = false := by
    intro Y hY
    cases hsm : strMem (out.1.map (fun r => r.id)) (drawId Y) with
    | false => rfl
    | true =>
      exfalso
      obtain ⟨k, hk, _, hc⟩ := hidsF _ hsm
      rw [h2 k hk Y hY] at hc
      exact Bool.false_ne_true hc
  -- every created reaction has a draw id of an unmeasured enzyme
  have hnew_form : ∀ r ∈ out.2, ∃ k ∈ unmeasuredOf st.concentrations, ∃ met,
      r = mkDraw st.common_protein_pool k met (mmwOf st.protein_properties k) := by
    intro r hrmem
    rcases poolLoop_new_sound hl r hrmem with h0 | ⟨k, hk, met, _, _, req⟩
    · exact absurd h0 (List.not_mem_nil r)
    · exact ⟨k, hk, met, req⟩
  have hnomatch : ∀ r ∈ out.2, r.id ≠ "prot_pool_exchange" := by
    intro r hrmem
    obtain ⟨k, _, met, req⟩ := hnew_form r hrmem
    rw [req]
    exact drawId_ne_pool_exchange k
  -- the pool exchange reaction of st₁ (with the updated bounds)
  have hr0id : r0.id = "prot_pool_exchange" := (findRxn_id_of_some hr).1
  have hfr' : findRxn
      (setRxnBounds st.reactions "prot_pool_exchange" 0
        ((st.p_total - pm) / st.p_base * f * st.sigma_saturation_factor))
      "prot_pool_exchange" =
      some (Rxn.mk "prot_pool_exchange" 0
        ((st.p_total - pm) / st.p_base * f * st.sigma_saturation_factor)
        r0.mets) := by
    rw [findRxn_setRxnBounds, hr]
    simp [hr0id]
  have hr₁ : findRxn st₁.reactions "prot_pool_exchange" =
      some (Rxn.mk "prot_pool_exchange" 0
        ((st.p_total - pm) / st.p_base * f * st.sigma_saturation_factor)
        r0.mets) := by
    rw [hre, findRxn_removeRxns_not_mem hpool_not]
    exact findRxn_addRxns_left hfr'
  -- the pool bounds are already in place in st₁
  have hset₁ : setRxnBounds st₁.reactions "prot_pool_exchange" 0
      ((st₁.p_total - pm) / st₁.p_base * f * st₁.sigma_saturation_factor) =
      st₁.reactions := by
    rw [hproj, hre, setRxnBounds_removeRxns, addRxns, setRxnBounds_append,
      setRxnBounds_idem, setRxnBounds_no_match _ _ hnomatch]
  -- the loop finds nothing to do on st₁
  have hnoop₁ : ∀ k ∈ unmeasuredOf st₁.concentrations,
      queryRxns st₁.reactions (protExId k) = [] ∧
      (findRxn st₁.reactions (drawId k)).isSome = true := by
    rw [hcs]
    intro k hk
    constructor
    · rw [queryRxns_eq]
      refine List.filter_eq_nil_iff.mpr ?_
      intro r hrmem hcont
      rw [hre] at hrmem
      obtain ⟨hrmem', hstm⟩ := mem_removeRxns.mp hrmem
      rcases mem_addRxns.mp hrmem' with hrs | hrn
      · have hro : r ∈ out.1 :=
          (poolLoop_toRemove_complete hl).2 k hk r hrs (by simpa using hcont)
        have : strMem (out.1.map (fun r => r.id)) r.id = true :=
          (strMem_iff _ _).mpr (List.mem_map_of_mem _ hro)
        rw [hstm] at this
        exact Bool.false_ne_true this
      · obtain ⟨k₁, hk₁, met, req⟩ := hnew_form r hrn
        have hcont' : strContains r.id (protExId k) = true := by simpa using hcont
        rw [req] at hcont'
        have hcont'' : strContains (drawId k₁) (protExId k) = true := hcont'
        have hfalse := h2 k hk k₁ hk₁
        rw [hfalse] at hcont''
        exact Bool.false_ne_true hcont''
    · have hmem : drawId k ∈ st₁.reactions.map Rxn.id := by
        cases hdk : findRxn st.reactions (drawId k) with
        | some rD =>
          obtain ⟨hrDid, hrDmem⟩ := findRxn_id_of_some hdk
          have hrD1 : rD ∈ setRxnBounds st.reactions "prot_pool_exchange" 0
              ((st.p_total - pm) / st.p_base * f * st.sigma_saturation_factor) :=
            mem_setRxnBounds_of_ne _ _ hrDmem
              (by rw [hrDid]; exact drawId_ne_pool_exchange k)
          have hmemf : rD ∈ st₁.reactions := by
            rw [hre]
            refine mem_removeRxns.mpr ⟨mem_addRxns.mpr (Or.inl hrD1), ?_⟩
            rw [hrDid]
            exact hdraw_not k hk
          exact List.mem_map.mpr ⟨rD, hmemf, hrDid⟩
        | none =>
          have hnd' : findRxn
              (setRxnBounds st.reactions "prot_pool_exchange" 0
                ((st.p_total - pm) / st.p_base * f * st.sigma_saturation_factor))
              (drawId k) = none := by
            rw [findRxn_setRxnBounds, hdk]; rfl
          obtain ⟨met, _, hmem2⟩ := (poolLoop_new_complete hl).2 k hk hnd'
          have hdm : mkDraw st.common_protein_pool k met
              (mmwOf st.protein_properties k) ∈ st₁.reactions := by
            rw [hre]
            exact mem_removeRxns.mpr
              ⟨mem_addRxns.mpr (Or.inr hmem2), hdraw_not k hk⟩
          exact List.mem_map.mpr ⟨_, hdm, rfl⟩
      exact (findRxn_isSome_iff _ _).mpr hmem
  exact constrain_pool_stable hpm₁ hf₁ hfs₁ hr₁ hset₁ hnoop₁

/-- state refuting unconditional idempotence: two unmeasured enzymes `abc` and
`abc_exchange` whose generated ids collide through the substring query
(`draw_prot_abc_exchange` contains `prot_abc_exchange`). -/
def c6State : GeckoState :=
  { c2State with
    reactions := [{ id := "prot_pool_exchange", lb := 0, ub := 1000,
                    mets := [(⟨"prot_pool", ""⟩, 1)] },
                  { id := "prot_abc_exchange", lb := 0, ub := 1000, mets := [] },
                  { id := "prot_abc_exchange_exchange", lb := 0, ub := 1000,
                    mets := [] }],
    metabolites := [⟨"prot_abc_c", ""⟩, ⟨"prot_abc_exchange_c", ""⟩],
    concentrations := [("abc", none), ("abc_exchange", none)],
    protein_properties := [("abc", ⟨1000, 1⟩), ("abc_exchange", ⟨1000, 1⟩)],
    p_measured := some 0,
    f_mass_fraction_measured_matched_to_total := some 1 }

/-- after the first `constrain_pool` call on `c6State`: both individual
exchanges removed, draw reactions created for both enzymes. -/
def c6St1 : GeckoState :=
  { c6State with
    fs_matched_adjusted := some 1,
    reactions := [{ id := "prot_pool_exchange", lb := 0, ub := 1,
                    mets := [(⟨"prot_pool", ""⟩, 1)] },
                  { id := "draw_prot_abc", lb := 0, ub := 1000,
                    mets := [(⟨"prot_pool", ""⟩, -1), (⟨"prot_abc_c", ""⟩, 1)] },
                  { id := "draw_prot_abc_exchange", lb := 0, ub := 1000,
                    mets := [(⟨"prot_pool", ""⟩, -1),
                             (⟨"prot_abc_exchange_c", ""⟩, 1)] }] }

/-- after the second `constrain_pool` call: the query for enzyme `abc` matches
`draw_prot_abc_exchange` (created by the first call) and removes it. -/
def c6St2 : GeckoState :=
  { c6St1 with
    reactions := [{ id := "prot_pool_exchange", lb := 0, ub := 1,
                    mets := [(⟨"prot_pool", ""⟩, 1)] },
                  { id := "draw_prot_abc", lb := 0, ub := 1000,
                    mets := [(⟨"prot_pool", ""⟩, -1), (⟨"prot_abc_c", ""⟩, 1)] }] }

theorem c6e1 : constrain_pool c6State = (c6St1, none) := by
  simp [constrain_pool, findRxn, setRxnBounds, poolLoop, unmeasured, unmeasuredOf,
    queryRxns, strContains, occurs, isPre, findMet, mkDraw, mmwOf, lookup?,
    tblMeanMw, addRxns, removeRxns, strMem, drawId, protExId, protMetId,
    c6State, c2State, c1State, c6St1] <;> norm_num

theorem c6e2 : constrain_pool c6St1 = (c6St2, none) := by
  simp [constrain_pool, findRxn, setRxnBounds, poolLoop, unmeasured, unmeasuredOf,
    queryRxns, strContains, occurs, isPre, findMet, mkDraw, mmwOf, lookup?,
    tblMeanMw, addRxns, removeRxns, strMem, drawId, protExId, protMetId,
    c6St1, c6St2, c6State, c2State, c1State] <;> norm_num

/-- counterexample to the unqualified C6: the first call creates the draw
reaction `draw_prot_abc_exchange`; the second call's substring query for the
unmeasured enzyme `abc` matches that draw reaction and removes it, so the
pool-draw reaction set differs between the two calls. -/
theorem C6_counterexample :
    constrain_pool c6State = (c6St1, none) ∧
    constrain_pool c6St1 = (c6St2, none) ∧
    findRxn c6St1.reactions (drawId "abc_exchange") ≠ none ∧
    findRxn c6St2.reactions (drawId "abc_exchange") = none ∧
    c6St2.reactions.map Rxn.id ≠ c6St1.reactions.map Rxn.id :=
  ⟨c6e1, c6e2, by decide, by decide, by decide⟩

/-- witness for the amended C6 at a concrete state satisfying the
non-degeneracy hypotheses. -/
theorem C6_constrain_pool_idempotent_witness :
    (constrain_pool w6State = (w6State', none) ∧
      (∀ X ∈ unmeasured w6State,
        strContains "prot_pool_exchange" (protExId X) = false) ∧
      (∀ X ∈ unmeasured w6State, ∀ Y ∈ unmeasured w6State,
        strContains (drawId Y) (protExId X) = false)) ∧
    constrain_pool w6State' = (w6State', none) :=
  ⟨⟨w6eval, by decide, by decide⟩,
   C6_constrain_pool_idempotent w6State w6State' w6eval (by decide) (by decide)⟩

/-! ### pipeline inversion -/

theorem computeScalars_none_inv {stA st2 : GeckoState}
    (h : computeScalars stA = (st2, none)) :
    ∃ rows, lookupRows stA.protein_properties (unmeasured stA) = .ok rows ∧
      st2 = { stA with
        p_measured := some (concSum stA.concentrations),
        fm_mass_fraction_matched := some (concSum stA.concentrations / stA.p_total),
        fn_mass_fraction_unmeasured_matched :=
          some ((rows.map (fun r => r.mw * r.abundance)).sum /
            tblProdSum stA.protein_properties),
        f_mass_fraction_measured_matched_to_total :=
          some ((rows.map (fun r => r.mw * r.abundance)).sum /
            tblProdSum stA.protein_properties /
            (1 - concSum stA.concentrations / stA.p_total)) } := by
  cases hlr : lookupRows stA.protein_properties (unmeasured stA) with
  | error e =>
    rw [computeScalars_err hlr] at h
    simp at h
  | ok rows =>
    rw [computeScalars_ok hlr] at h
    exact ⟨rows, rfl, (((Prod.mk.injEq _ _ _ _).mp h).1).symm⟩

theorem apply_measurements_none_inv {st st' : GeckoState} {m : Series}
    (h : apply_measurements st m = (st', none)) :
    ∃ gw st2 st3,
      fraction_to_ggdw st.protein_properties st.p_total m = .ok gw ∧
      computeScalars (applyGgdw st gw) = (st2, none) ∧
      constrain_pool st2 = (st3, none) ∧
      st' = adjust_biomass_composition st3 := by
  cases hc : fraction_to_ggdw st.protein_properties st.p_total m with
  | error e =>
    simp only [apply_measurements, hc, exceptCase_error, Prod.mk.injEq] at h
    exact absurd h.2 (by simp)
  | ok gw =>
    rcases h2 : computeScalars (applyGgdw st gw) with ⟨st2, e2⟩
    cases e2 with
    | some e =>
      rw [apply_measurements_err2 hc h2] at h
      simp at h
    | none =>
      rcases h3 : constrain_pool st2 with ⟨st3, e3⟩
      cases e3 with
      | some e =>
        rw [apply_measurements_err3 hc h2 h3] at h
        simp at h
      | none =>
        rw [apply_measurements_ok hc h2 h3] at h
        have h1 := ((Prod.mk.injEq _ _ _ _).mp h).1
        exact ⟨gw, st2, st3, rfl, h2, h3, h1.symm⟩

/-! ### C4: the pool exchange bounds after apply_measurements -/

/-- C4 (amended).  After a successful `apply_measurements` call, provided the
substring-query removal did not hit the pool exchange itself (no unmeasured
enzyme's exchange-id pattern occurs inside `prot_pool_exchange`), the pool
exchange reaction of the result has lower bound `0` and upper bound exactly
`(p_total - p_measured) / p_base * f * sigma` computed from the call's own
scalars, and `fs_matched_adjusted` stores that same value; no clamping
happens.  The unqualified claim is refuted by `C4_counterexample`, where the
pool exchange is removed by the query. -/
theorem C4_pool_bounds (st st' : GeckoState) (m : Series)
    (h : apply_measurements st m = (st', none))
    (hpool : ∀ X ∈ unmeasured st',
      strContains "prot_pool_exchange" (protExId X) = false) :
    ∃ pm fv r, st'.p_measured = some pm ∧
      st'.f_mass_fraction_measured_matched_to_total = some fv ∧
      findRxn st'.reactions "prot_pool_exchange" = some r ∧
      r.lb = 0 ∧
      r.ub = (st'.p_total - pm) / st'.p_base * fv * st'.sigma_saturation_factor ∧
      st'.fs_matched_adjusted = some r.ub := by
  obtain ⟨gw, st2, st3, hc, h2, h3, hadj⟩ := apply_measurements_none_inv h
  obtain ⟨pm, fv, r0, out, hpm, hf, hr, hl, hst3⟩ := constrain_pool_none_inv h3
  have hconc : st'.concentrations = st2.concentrations := by
    rw [hadj, hst3]
    rfl
  have hpool2 : ∀ X ∈ unmeasuredOf st2.concentrations,
      strContains "prot_pool_exchange" (protExId X) = false := by
    intro X hX
    refine hpool X ?_
    show X ∈ unmeasuredOf st'.concentrations
    rw [hconc]
    exact hX
  -- the removed ids cannot include the pool exchange id
  have hpool_not : strMem (out.1.map (fun r => r.id)) "prot_pool_exchange" = false := by
    cases hsm : strMem (out.1.map (fun r => r.id)) "prot_pool_exchange" with
    | false => rfl
    | true =>
      exfalso
      obtain ⟨r, hrout, hrid⟩ := List.mem_map.mp ((strMem_iff _ _).mp hsm)
      have hrid' : r.id = "prot_pool_exchange" := hrid
      rcases poolLoop_toRemove_sound hl r hrout with h0 | ⟨k, hk, _, hcont⟩
      · exact List.not_mem_nil r h0
      · rw [hrid', hpool2 k hk] at hcont
        exact Bool.false_ne_true hcont
  have hr0id : r0.id = "prot_pool_exchange" := (findRxn_id_of_some hr).1
  have hfr' : findRxn
      (setRxnBounds st2.reactions "prot_pool_exchange" 0
        ((st2.p_total - pm) / st2.p_base * fv * st2.sigma_saturation_factor))
      "prot_pool_exchange" =
      some (Rxn.mk "prot_pool_exchange" 0
        ((st2.p_total - pm) / st2.p_base * fv * st2.sigma_saturation_factor)
        r0.mets) := by
    rw [findRxn_setRxnBounds, hr]
    simp [hr0id]
  have hr₁ : findRxn st'.reactions "prot_pool_exchange" =
      some (Rxn.mk "prot_pool_exchange" 0
        ((st2.p_total - pm) / st2.p_base * fv * st2.sigma_saturation_factor)
        r0.mets) := by
    have hstre : st'.reactions = removeRxns
        (addRxns (setRxnBounds st2.reactions "prot_pool_exchange" 0
            ((st2.p_total - pm) / st2.p_base * fv * st2.sigma_saturation_factor))
          out.2)
        (out.1.map (fun r => r.id)) := by
      rw [hadj, hst3]
      rfl
    rw [hstre, findRxn_removeRxns_not_mem hpool_not]
    exact findRxn_addRxns_left hfr'
  have hFSeq : (st'.p_total - pm) / st'.p_base * fv * st'.sigma_saturation_factor =
      (st2.p_total - pm) / st2.p_base * fv * st2.sigma_saturation_factor := by
    rw [hadj, hst3]
    rfl
  refine ⟨pm, fv,
    Rxn.mk "prot_pool_exchange" 0
      ((st2.p_total - pm) / st2.p_base * fv * st2.sigma_saturation_factor)
      r0.mets,
    ?_, ?_, hr₁, rfl, ?_, ?_⟩
  · rw [hadj, hst3]; exact hpm
  · rw [hadj, hst3]; exact hf
  · exact hFSeq.symm
  · rw [hadj, hst3]; rfl

/-- state refuting the unqualified C4: the unmeasured enzyme is named `pool`,
so its exchange-id pattern `prot_pool_exchange` matches the pool exchange
reaction itself, which the query removal deletes. -/
def c4State : GeckoState :=
  { c2State with
    reactions := [{ id := "prot_pool_exchange", lb := 0, ub := 1000,
                    mets := [(⟨"prot_pool", ""⟩, 1)] },
                  { id := "prot_A_exchange", lb := 0, ub := 1000, mets := [] },
                  { id := "draw_prot_pool", lb := 0, ub := 1000, mets := [] }],
    metabolites := [],
    concentrations := [("A", none), ("pool", none)],
    protein_properties := [("A", ⟨10, 1/2⟩), ("pool", ⟨10, 1/2⟩)] }

/-- `c4State` after the measured bounds of `A` are applied. -/
def c4St1 : GeckoState :=
  { c4State with
    reactions := [{ id := "prot_pool_exchange", lb := 0, ub := 1000,
                    mets := [(⟨"prot_pool", ""⟩, 1)] },
                  { id := "prot_A_exchange", lb := 0, ub := 25, mets := [] },
                  { id := "draw_prot_pool", lb := 0, ub := 1000, mets := [] }],
    concentrations := [("A", some (1/4)), ("pool", none)] }

/-- `c4St1` after the derived scalars are recomputed. -/
def c4St2 : GeckoState :=
  { c4St1 with
    p_measured := some (1/4),
    fm_mass_fraction_matched := some (1/2),
    fn_mass_fraction_unmeasured_matched := some (1/2),
    f_mass_fraction_measured_matched_to_total := some 1 }

/-- `c4St2` after `constrain_pool`: the pool exchange has been removed by the
substring query for the enzyme named `pool`. -/
def c4St3 : GeckoState :=
  { c4St2 with
    fs_matched_adjusted := some (1/2),
    reactions := [{ id := "prot_A_exchange", lb := 0, ub := 25, mets := [] },
                  { id := "draw_prot_pool", lb := 0, ub := 1000, mets := [] }] }

theorem c4w1 : fraction_to_ggdw c4State.protein_properties c4State.p_total
    [("A", 1)] = .ok [("A", (1:ℚ)/4)] := by
  simp [fraction_to_ggdw, seriesSum, lookupAbundances, lookup?,
    c4State, c2State, c1State] <;> norm_num

theorem c4w2 : applyGgdw c4State [("A", (1:ℚ)/4)] = c4St1 := by
  simp [applyGgdw, applyGgdwAux, lookup?, findRxn, setRxnBounds, concSet, hasKey,
    protExId, c4State, c4St1, c2State, c1State] <;> norm_num

theorem c4w3 : computeScalars c4St1 = (c4St2, none) := by
  simp [computeScalars, concSum, unmeasured, unmeasuredOf, lookupRows, lookup?,
    tblProdSum, c4St1, c4St2, c4State, c2State, c1State] <;> norm_num

theorem c4w4 : constrain_pool c4St2 = (c4St3, none) := by
  simp [constrain_pool, findRxn, setRxnBounds, poolLoop, unmeasured, unmeasuredOf,
    queryRxns, strContains, occurs, isPre, findMet, mkDraw, mmwOf, lookup?,
    tblMeanMw, addRxns, removeRxns, strMem, drawId, protExId, protMetId,
    c4St2, c4St3, c4St1, c4State, c2State, c1State] <;> norm_num

theorem c4w5 : adjust_biomass_composition c4St3 = c4St3 := by
  simp [adjust_biomass_composition, c4St3, c4St2, c4St1, c4State, c2State,
    c1State] <;> norm_num

theorem c4_apply : apply_measurements c4State [("A", 1)] = (c4St3, none) := by
  simp only [apply_measurements, c4w1, exceptCase_ok]
  rw [c4w2]
  simp only [c4w3, c4w4, c4w5, optCase_none]

/-- counterexample to the unqualified C4: the call succeeds, yet the result
has no pool exchange reaction at all, so its bounds equal nothing. -/
theorem C4_counterexample :
    apply_measurements c4State [("A", 1)] = (c4St3, none) ∧
    findRxn c4St3.reactions "prot_pool_exchange" = none :=
  ⟨c4_apply, by decide⟩

/-- witness for the amended C4 at the `c2State` run (no unmeasured enzymes
remain, so the non-degeneracy hypothesis is vacuous). -/
theorem C4_pool_bounds_witness :
    (apply_measurements c2State [("E", 1)] = (c2St3, none) ∧
      ∀ X ∈ unmeasured c2St3,
        strContains "prot_pool_exchange" (protExId X) = false) ∧
    ∃ pm fv r, c2St3.p_measured = some pm ∧
      c2St3.f_mass_fraction_measured_matched_to_total = some fv ∧
      findRxn c2St3.reactions "prot_pool_exchange" = some r ∧
      r.lb = 0 ∧
      r.ub = (c2St3.p_total - pm) / c2St3.p_base * fv *
        c2St3.sigma_saturation_factor ∧
      c2St3.fs_matched_adjusted = some r.ub :=
  ⟨⟨c2_apply, by decide⟩,
   C4_pool_bounds c2State c2St3 [("E", 1)] c2_apply (by decide)⟩

/-! ### C8: the enzyme partition -/

/-- the enzyme sets behind `individual_enzymes`: an enzyme is individual iff
some non-pool reaction carries its exchange id. -/
theorem mem_individual_enzymes (st : GeckoState) (X : String) :
    X ∈ individual_enzymes st ↔
      ∃ r ∈ st.reactions, r.id = protExId X ∧ r.id ≠ st.pool_exchange_id := by
  unfold individual_enzymes protein_exchanges
  rw [collectMatches_eq, peFilter_eq]
  simp only [List.mem_filterMap, List.mem_filter]
  constructor
  · rintro ⟨r, ⟨hmem, hpred⟩, hmatch⟩
    refine ⟨r, hmem, protExMatch?_some hmatch, ?_⟩
    have hp := (Bool.and_eq_true _ _).mp hpred
    simpa using hp.2
  · rintro ⟨r, hmem, hid, hne⟩
    rw [hid] at hne
    refine ⟨r, ⟨hmem, ?_⟩, ?_⟩
    · rw [hid]
      simp [protExMatch?_protExId, hne]
    · rw [hid]
      exact protExMatch?_protExId X

/-- the enzyme sets behind `pool_enzymes`: an enzyme is pool-modeled iff some
non-pool reaction carries its draw id. -/
theorem mem_pool_enzymes (st : GeckoState) (X : String) :
    X ∈ pool_enzymes st ↔
      ∃ r ∈ st.reactions, r.id = drawId X ∧ r.id ≠ st.pool_exchange_id := by
  unfold pool_enzymes protein_exchanges
  rw [collectMatches_eq, peFilter_eq]
  simp only [List.mem_filterMap, List.mem_filter]
  constructor
  · rintro ⟨r, ⟨hmem, hpred⟩, hmatch⟩
    refine ⟨r, hmem, drawMatch?_some hmatch, ?_⟩
    have hp := (Bool.and_eq_true _ _).mp hpred
    simpa using hp.2
  · rintro ⟨r, hmem, hid, hne⟩
    rw [hid] at hne
    refine ⟨r, ⟨hmem, ?_⟩, ?_⟩
    · rw [hid]
      simp [drawMatch?_drawId, hne]
    · rw [hid]
      exact drawMatch?_drawId X

/-- the disjointness half of the enzyme partition invariant. -/
def disjointEnzymes (st : GeckoState) : Prop :=
  ∀ X, X ∈ individual_enzymes st → X ∉ pool_enzymes st

/-- C8.  After a successful `apply_measurements` call, `enzymes` is the union
of `individual_enzymes` and `pool_enzymes` (membership in the union holds in
both directions), and when the two sets were disjoint before the call they are
disjoint after it: no enzyme ends up with both an individual exchange reaction
and a draw reaction. -/
theorem C8_enzyme_partition (st st' : GeckoState) (m : Series)
    (h : apply_measurements st m = (st', none))
    (hd : disjointEnzymes st) :
    (∀ X, X ∈ enzymes st' ↔ X ∈ individual_enzymes st' ∨ X ∈ pool_enzymes st') ∧
    disjointEnzymes st' := by
  refine ⟨fun X => List.mem_append, ?_⟩
  intro X hXi hXp
  obtain ⟨gw, st2, st3, hc, h2, h3, hadj⟩ := apply_measurements_none_inv h
  obtain ⟨rows, hlr, hst2⟩ := computeScalars_none_inv h2
  obtain ⟨pm, fv, r0, out, hpm, hf, hr, hl, hst3⟩ := constrain_pool_none_inv h3
  rw [mem_individual_enzymes] at hXi
  rw [mem_pool_enzymes] at hXp
  obtain ⟨ra, hraM, hraId, hraNe⟩ := hXi
  obtain ⟨rb, hrbM, hrbId, hrbNe⟩ := hXp
  have hstre : st'.reactions = removeRxns
      (addRxns (setRxnBounds st2.reactions "prot_pool_exchange" 0
          ((st2.p_total - pm) / st2.p_base * fv * st2.sigma_saturation_factor))
        out.2)
      (out.1.map (fun r => r.id)) := by
    rw [hadj, hst3]
    rfl
  have hpoolid : st'.pool_exchange_id = st.pool_exchange_id := by
    rw [hadj, hst3, hst2]
    rfl
  have hids2 : st2.reactions.map Rxn.id = st.reactions.map Rxn.id := by
    rw [hst2]
    show (applyGgdw st gw).reactions.map Rxn.id = st.reactions.map Rxn.id
    rw [applyGgdw_reactions, applyGgdwAux_ids]
  -- the exchange reaction survives inside the bound-adjusted original list
  rw [hstre] at hraM hrbM
  obtain ⟨hraM', hraS⟩ := mem_removeRxns.mp hraM
  obtain ⟨hrbM', hrbS⟩ := mem_removeRxns.mp hrbM
  have hraRs : ra ∈ setRxnBounds st2.reactions "prot_pool_exchange" 0
      ((st2.p_total - pm) / st2.p_base * fv * st2.sigma_saturation_factor) := by
    rcases mem_addRxns.mp hraM' with h1 | h1
    · exact h1
    · exfalso
      rcases poolLoop_new_sound hl ra h1 with h0 | ⟨k, _, met, _, _, req⟩
      · exact List.not_mem_nil ra h0
      · have : drawId k = protExId X := by
          rw [← hraId, req]
          rfl
        exact drawId_ne_protExId k X this
  rcases mem_addRxns.mp hrbM' with hrbRs | hrbNew
  · -- the draw reaction already existed: both patterns were present before
    obtain ⟨ra0, hra0M, hra0Id, _⟩ := mem_setRxnBounds hraRs
    obtain ⟨rb0, hrb0M, hrb0Id, _⟩ := mem_setRxnBounds hrbRs
    have hXiSt : X ∈ individual_enzymes st := by
      have hra0mem : ra0.id ∈ st2.reactions.map Rxn.id :=
        List.mem_map_of_mem Rxn.id hra0M
      rw [hids2] at hra0mem
      obtain ⟨ra1, hra1M, hra1Id⟩ := List.mem_map.mp hra0mem
      refine (mem_individual_enzymes st X).mpr ⟨ra1, hra1M, ?_, ?_⟩
      · rw [hra1Id, ← hra0Id]
        exact hraId
      · rw [hra1Id, ← hra0Id, ← hpoolid]
        exact hraNe
    have hXpSt : X ∈ pool_enzymes st := by
      have hrb0mem : rb0.id ∈ st2.reactions.map Rxn.id :=
        List.mem_map_of_mem Rxn.id hrb0M
      rw [hids2] at hrb0mem
      obtain ⟨rb1, hrb1M, hrb1Id⟩ := List.mem_map.mp hrb0mem
      refine (mem_pool_enzymes st X).mpr ⟨rb1, hrb1M, ?_, ?_⟩
      · rw [hrb1Id, ← hrb0Id]
        exact hrbId
      · rw [hrb1Id, ← hrb0Id, ← hpoolid]
        exact hrbNe
    exact hd X hXiSt hXpSt
  · -- the draw reaction was created for X, so X was unmeasured and its
    -- exchange reaction was removed by the query: contradiction
    rcases poolLoop_new_sound hl rb hrbNew with h0 | ⟨k, hk, met, _, _, req⟩
    · exact List.not_mem_nil rb h0
    · have hkX : k = X := by
        apply drawId_inj
        rw [← hrbId, req]
        rfl
      subst hkX
      have hra1 : ra ∈ out.1 := by
        refine (poolLoop_toRemove_complete hl).2 k hk ra hraRs ?_
        rw [hraId]
        exact strContains_self (protExId k)
      have : strMem (out.1.map (fun r => r.id)) ra.id = true :=
        (strMem_iff _ _).mpr (List.mem_map_of_mem _ hra1)
      rw [hraS] at this
      exact Bool.false_ne_true this

theorem c2disj : disjointEnzymes c2State := by
  intro X h1 h2
  have hp : pool_enzymes c2State = [] := by decide
  rw [hp] at h2
  exact absurd h2 (List.not_mem_nil X)

/-- witness for C8 at the `c2State` run. -/
theorem C8_enzyme_partition_witness :
    (apply_measurements c2State [("E", 1)] = (c2St3, none) ∧
      disjointEnzymes c2State) ∧
    (∀ X, X ∈ enzymes c2St3 ↔
      X ∈ individual_enzymes c2St3 ∨ X ∈ pool_enzymes c2St3) ∧
    disjointEnzymes c2St3 :=
  ⟨⟨c2_apply, c2disj⟩,
   C8_enzyme_partition c2State c2St3 [("E", 1)] c2_apply c2disj⟩

/-! ### C9: the concentration series is never reset -/

/-- an entry whose individual exchange reaction is missing is skipped by the
step-1 loop even when it is measured (the `KeyError` of `get_by_id` is caught
and `pass`ed): its concentration entry survives unchanged. -/
theorem applyGgdwAux_conc_frame_noex (tbl : PropTable) (gw : Series)
    (p : List Rxn × List (String × Option ℚ)) (x : String)
    (hx : findRxn p.1 (protExId x) = none) :
    lookup? (applyGgdwAux tbl gw p).2 x = lookup? p.2 x := by
  induction gw generalizing p with
  | nil => rfl
  | cons e rest ih =>
    obtain ⟨k, v⟩ := e
    cases hlk : lookup? tbl k with
    | none => simp [applyGgdwAux, hlk, ih _ hx]
    | some row =>
      cases hfr : findRxn p.1 (protExId k) with
      | none => simp [applyGgdwAux, hlk, hfr, ih _ hx]
      | some r =>
        have hkx : k ≠ x := by
          rintro rfl
          rw [hx] at hfr
          exact Option.noConfusion hfr
        simp only [applyGgdwAux, hlk, hfr, optCase_some]
        rw [ih _ (by
          rw [findRxn_eq_none_iff, setRxnBounds_ids, ← findRxn_eq_none_iff]
          exact hx)]
        exact lookup?_concSet_ne v (Ne.symm hkx)

theorem hasKey_iff (cs : List (String × Option ℚ)) (k : String) :
    hasKey cs k = true ↔ k ∈ cs.map Prod.fst := by
  induction cs with
  | nil => simp [hasKey]
  | cons p rest ih =>
    simp only [hasKey, Bool.or_eq_true, beq_iff_eq, ih, List.map_cons,
      List.mem_cons]
    exact or_congr_left eq_comm

theorem concSet_keys_nodup {cs : List (String × Option ℚ)} {k : String} (v : ℚ)
    (h : (cs.map Prod.fst).Nodup) : ((concSet cs k v).map Prod.fst).Nodup := by
  unfold concSet
  cases hk : hasKey cs k with
  | true =>
    simp only [boolCase_true]
    have heq : (cs.map (fun p => if p.1 == k then (p.1, some v) else p)).map
        Prod.fst = cs.map Prod.fst := by
      rw [List.map_map]
      refine List.map_congr_left (fun p _ => ?_)
      by_cases hp : p.1 = k <;> simp [hp, Function.comp]
    rw [heq]
    exact h
  | false =>
    simp only [boolCase_false]
    rw [List.map_append]
    rw [List.nodup_append]
    refine ⟨h, by simp, ?_⟩
    intro a ha hb
    simp only [List.map_cons, List.map_nil, List.mem_singleton] at hb
    rw [hb] at ha
    have hkk : hasKey cs k = true := (hasKey_iff cs k).mpr ha
    rw [hk] at hkk
    exact Bool.noConfusion hkk

theorem applyGgdwAux_keys_nodup (tbl : PropTable) (gw : Series)
    (p : List Rxn × List (String × Option ℚ))
    (h : (p.2.map Prod.fst).Nodup) :
    (((applyGgdwAux tbl gw p).2).map Prod.fst).Nodup := by
  induction gw generalizing p with
  | nil => exact h
  | cons e rest ih =>
    obtain ⟨k, v⟩ := e
    cases hlk : lookup? tbl k with
    | none => simpa [applyGgdwAux, hlk] using ih _ h
    | some row =>
      cases hfr : findRxn p.1 (protExId k) with
      | none => simpa [applyGgdwAux, hlk, hfr] using ih _ h
      | some r =>
        simp only [applyGgdwAux, hlk, hfr, optCase_some]
        exact ih _ (concSet_keys_nodup v h)

/-- with duplicate-free labels, a lookup result pins down every stored pair. -/
theorem lookup?_nodup_unique {α : Type} {cs : List (String × α)} {x : String}
    {w w' : α} (hnd : (cs.map Prod.fst).Nodup) (hl : lookup? cs x = some w)
    (hmem : (x, w') ∈ cs) : w' = w := by
  induction cs with
  | nil => cases hmem
  | cons p rest ih =>
    rw [List.map_cons, List.nodup_cons] at hnd
    rcases List.mem_cons.mp hmem with heq | hmem'
    · have hx : p.1 = x := by rw [← heq]
      rw [lookup?] at hl
      rw [show (p.1 == x) = true from by simp [hx], boolCase_true] at hl
      have hw : p.2 = w := Option.some.inj hl
      rw [← heq] at hw
      exact hw
    · have hx : p.1 ≠ x := by
        intro hc
        refine hnd.1 ?_
        rw [hc]
        exact List.mem_map_of_mem Prod.fst hmem'
      rw [lookup?] at hl
      rw [show (p.1 == x) = false from by simp [hx], boolCase_false] at hl
      exact ih hnd.2 hl hmem'

/-- C9.  A successful `apply_measurements` call never resets a concentration
entry: for an enzyme absent from the measurement series, or measured but
matched to no individual exchange reaction, the stored concentration is
unchanged.  `p_measured` is the sum over the whole updated series (so an
enzyme measured earlier and omitted now is still counted), and an enzyme with
a stored (non-null) concentration is not in the unmeasured set afterwards. -/
theorem C9_concentrations_frame (st st' : GeckoState) (m : Series) (x : String)
    (h : apply_measurements st m = (st', none))
    (hx : x ∉ m.map Prod.fst ∨ findRxn st.reactions (protExId x) = none) :
    lookup? st'.concentrations x = lookup? st.concentrations x ∧
    st'.p_measured = some (concSum st'.concentrations) ∧
    ((st.concentrations.map Prod.fst).Nodup →
      ∀ v : ℚ, lookup? st.concentrations x = some (some v) →
        x ∉ unmeasured st') := by
  obtain ⟨gw, st2, st3, hc, h2, h3, hadj⟩ := apply_measurements_none_inv h
  obtain ⟨rows, hlr, hst2⟩ := computeScalars_none_inv h2
  obtain ⟨pm, fv, r0, out, hpm, hf, hr, hl, hst3⟩ := constrain_pool_none_inv h3
  have hca : st'.concentrations =
      (applyGgdwAux st.protein_properties gw (st.reactions, st.concentrations)).2 := by
    rw [hadj, hst3, hst2]
    rfl
  have hgwkeys := fraction_to_ggdw_keys hc
  have hframe : lookup? st'.concentrations x = lookup? st.concentrations x := by
    rw [hca]
    rcases hx with hx1 | hx2
    · exact applyGgdwAux_conc_frame _ _ _ _ (by rw [hgwkeys]; exact hx1)
    · exact applyGgdwAux_conc_frame_noex _ _ _ _ hx2
  refine ⟨hframe, ?_, ?_⟩
  · rw [hadj, hst3, hst2]
    rfl
  · intro hnd v hv
    intro hmem
    have hmem' : (x, (none : Option ℚ)) ∈ st'.concentrations :=
      (mem_unmeasuredOf _ _).mp hmem
    have hnd' : (st'.concentrations.map Prod.fst).Nodup := by
      rw [hca]
      exact applyGgdwAux_keys_nodup _ _ _ hnd
    have hv' : lookup? st'.concentrations x = some (some v) := by
      rw [hframe]
      exact hv
    have hcontra := lookup?_nodup_unique hnd' hv' hmem'
    exact Option.noConfusion hcontra

/-- state for C9: enzyme `F` carries a concentration from an earlier call and
is omitted from the new measurement series. -/
def c9State : GeckoState :=
  { c2State with
    concentrations := [("E", none), ("F", some (1/3))],
    protein_properties := [("E", ⟨50, 1⟩), ("F", ⟨50, 1⟩)] }

/-- `c9State` after the measured bounds of `E` are applied. -/
def c9St1 : GeckoState :=
  { c9State with
    reactions := [{ id := "prot_pool_exchange", lb := 0, ub := 1000,
                    mets := [(⟨"prot_pool", ""⟩, 1)] },
                  { id := "prot_E_exchange", lb := 0, ub := 10, mets := [] }],
    concentrations := [("E", some (1/2)), ("F", some (1/3))] }

/-- `c9St1` after the derived scalars are recomputed. -/
def c9St2 : GeckoState :=
  { c9St1 with
    p_measured := some (5/6),
    fm_mass_fraction_matched := some (5/3),
    fn_mass_fraction_unmeasured_matched := some 0,
    f_mass_fraction_measured_matched_to_total := some 0 }

/-- `c9St2` after `constrain_pool` (no unmeasured enzymes remain). -/
def c9St3 : GeckoState :=
  { c9St2 with
    fs_matched_adjusted := some 0,
    reactions := [{ id := "prot_pool_exchange", lb := 0, ub := 0,
                    mets := [(⟨"prot_pool", ""⟩, 1)] },
                  { id := "prot_E_exchange", lb := 0, ub := 10, mets := [] }] }

theorem c9w1 : fraction_to_ggdw c9State.protein_properties c9State.p_total
    [("E", 1)] = .ok [("E", (1:ℚ)/2)] := by
  simp [fraction_to_ggdw, seriesSum, lookupAbundances, lookup?,
    c9State, c2State, c1State] <;> norm_num

theorem c9w2 : applyGgdw c9State [("E", (1:ℚ)/2)] = c9St1 := by
  simp [applyGgdw, applyGgdwAux, lookup?, findRxn, setRxnBounds, concSet, hasKey,
    protExId, c9State, c9St1, c2State, c1State] <;> norm_num

theorem c9w3 : computeScalars c9St1 = (c9St2, none) := by
  simp [computeScalars, concSum, unmeasured, unmeasuredOf, lookupRows, lookup?,
    tblProdSum, c9St1, c9St2, c9State, c2State, c1State] <;> norm_num

theorem c9w4 : constrain_pool c9St2 = (c9St3, none) := by
  simp [constrain_pool, findRxn, setRxnBounds, poolLoop, unmeasured, unmeasuredOf,
    addRxns, removeRxns, strMem, c9St2, c9St3, c9St1, c9State, c2State,
    c1State] <;> norm_num

theorem c9w5 : adjust_biomass_composition c9St3 = c9St3 := by
  simp [adjust_biomass_composition, c9St3, c9St2, c9St1, c9State, c2State,
    c1State] <;> norm_num

theorem c9_apply : apply_measurements c9State [("E", 1)] = (c9St3, none) := by
  simp only [apply_measurements, c9w1, exceptCase_ok]
  rw [c9w2]
  simp only [c9w3, c9w4, c9w5, optCase_none]

/-- witness for C9 at the omitted enzyme `F` of the `c9State` run. -/
theorem C9_concentrations_frame_witness :
    (apply_measurements c9State [("E", 1)] = (c9St3, none) ∧
      "F" ∉ [("E", (1:ℚ))].map Prod.fst) ∧
    (lookup? c9St3.concentrations "F" = lookup? c9State.concentrations "F" ∧
     c9St3.p_measured = some (concSum c9St3.concentrations) ∧
     ((c9State.concentrations.map Prod.fst).Nodup →
       ∀ v : ℚ, lookup? c9State.concentrations "F" = some (some v) →
         "F" ∉ unmeasured c9St3)) :=
  ⟨⟨c9_apply, by decide⟩,
   C9_concentrations_frame c9State c9St3 [("E", 1)] "F" c9_apply
     (Or.inl (by decide))⟩

/-! ### C10: the unguarded metabolite lookup -/

/-- strengthening of `poolLoop_err`: the raised key is the protein-metabolite
id of one of the loop's enzymes whose metabolite is absent. -/
theorem poolLoop_err2 {rs : List Rxn} {ms : List Met} {cp : Met} {tbl : PropTable}
    {ks : List String}
    (h : ∃ k ∈ ks, findRxn rs (drawId k) = none ∧ findMet ms (protMetId k) = none) :
    ∀ tr nw, ∃ k ∈ ks, findMet ms (protMetId k) = none ∧
      poolLoop rs ms cp tbl ks tr nw = .error (.keyError (protMetId k)) := by
  induction ks with
  | nil => simp at h
  | cons k rest ih =>
    intro tr nw
    obtain ⟨k₀, hk₀, hd₀, hm₀⟩ := h
    cases hd : findRxn rs (drawId k) with
    | some r =>
      have hk₀r : k₀ ∈ rest := by
        rcases List.mem_cons.mp hk₀ with rfl | hmem
        · rw [hd₀] at hd
          exact Option.noConfusion hd
        · exact hmem
      obtain ⟨k₁, hk₁, hm₁, heq⟩ := ih ⟨k₀, hk₀r, hd₀, hm₀⟩ _ _
      refine ⟨k₁, by simp [hk₁], hm₁, ?_⟩
      rw [poolLoop, hd]
      simp only [Option.isSome_some, if_true]
      exact heq
    | none =>
      cases hm : findMet ms (protMetId k) with
      | none =>
        refine ⟨k, by simp, hm, ?_⟩
        rw [poolLoop, hd]
        simp only [Option.isSome_none, Bool.false_eq_true, if_false, hm,
          optCase_none]
      | some met =>
        have hk₀r : k₀ ∈ rest := by
          rcases List.mem_cons.mp hk₀ with rfl | hmem
          · rw [hm₀] at hm
            exact Option.noConfusion hm
          · exact hmem
        obtain ⟨k₁, hk₁, hm₁, heq⟩ := ih ⟨k₀, hk₀r, hd₀, hm₀⟩ _ _
        refine ⟨k₁, by simp [hk₁], hm₁, ?_⟩
        rw [poolLoop, hd]
        simp only [Option.isSome_none, Bool.false_eq_true, if_false, hm,
          optCase_some]
        exact heq

/-- C10.  When some enzyme left unmeasured after the scalar stage has neither
a draw reaction nor a `prot_<id>_c` metabolite, the metabolite lookup of
`constrain_pool` raises an unguarded `KeyError` (only the molecular-weight
lookup has a fallback), and `apply_measurements` propagates it.  The returned
state carries the already-mutated reactions: the per-enzyme bounds of step 1
(`st2.reactions`, the `applyGgdw` output) plus the freshly set pool-exchange
bounds, with `fs_matched_adjusted` assigned. -/
theorem C10_missing_metabolite (st st2 : GeckoState) (m gw : Series) (X : String)
    (h1 : fraction_to_ggdw st.protein_properties st.p_total m = .ok gw)
    (h2 : computeScalars (applyGgdw st gw) = (st2, none))
    (hX : X ∈ unmeasured st2)
    (hrp : (findRxn st2.reactions "prot_pool_exchange").isSome = true)
    (hnd : findRxn st2.reactions (drawId X) = none)
    (hnm : findMet st2.metabolites (protMetId X) = none) :
    ∃ pm fv k, st2.p_measured = some pm ∧
      st2.f_mass_fraction_measured_matched_to_total = some fv ∧
      k ∈ unmeasured st2 ∧
      findMet st2.metabolites (protMetId k) = none ∧
      apply_measurements st m =
        ({ st2 with
            fs_matched_adjusted := some ((st2.p_total - pm) / st2.p_base * fv *
              st2.sigma_saturation_factor),
            reactions := setRxnBounds st2.reactions "prot_pool_exchange" 0
              ((st2.p_total - pm) / st2.p_base * fv *
                st2.sigma_saturation_factor) },
          some (.keyError (protMetId k))) ∧
      st2.reactions =
        (applyGgdwAux st.protein_properties gw (st.reactions, st.concentrations)).1 := by
  obtain ⟨rows, hlr, hst2⟩ := computeScalars_none_inv h2
  have hpm : st2.p_measured =
      some (concSum (applyGgdw st gw).concentrations) := by
    rw [hst2]
  have hf : st2.f_mass_fraction_measured_matched_to_total =
      some ((rows.map (fun r => r.mw * r.abundance)).sum /
        tblProdSum (applyGgdw st gw).protein_properties /
        (1 - concSum (applyGgdw st gw).concentrations /
          (applyGgdw st gw).p_total)) := by
    rw [hst2]
  obtain ⟨r0, hr0⟩ := Option.isSome_iff_exists.mp hrp
  have hnd' : findRxn
      (setRxnBounds st2.reactions "prot_pool_exchange" 0
        ((st2.p_total - concSum (applyGgdw st gw).concentrations) / st2.p_base *
          ((rows.map (fun r => r.mw * r.abundance)).sum /
            tblProdSum (applyGgdw st gw).protein_properties /
            (1 - concSum (applyGgdw st gw).concentrations /
              (applyGgdw st gw).p_total)) *
          st2.sigma_saturation_factor))
      (drawId X) = none := by
    rw [findRxn_setRxnBounds, hnd]
    rfl
  obtain ⟨k, hk, hmk, herr⟩ := @poolLoop_err2
    (setRxnBounds st2.reactions "prot_pool_exchange" 0
      ((st2.p_total - concSum (applyGgdw st gw).concentrations) / st2.p_base *
        ((rows.map (fun r => r.mw * r.abundance)).sum /
          tblProdSum (applyGgdw st gw).protein_properties /
          (1 - concSum (applyGgdw st gw).concentrations /
            (applyGgdw st gw).p_total)) *
        st2.sigma_saturation_factor))
    st2.metabolites st2.common_protein_pool st2.protein_properties
    (unmeasuredOf st2.concentrations)
    ⟨X, hX, hnd', hnm⟩ [] []
  have hcp := constrain_pool_err hpm hf hr0 herr
  refine ⟨concSum (applyGgdw st gw).concentrations,
    (rows.map (fun r => r.mw * r.abundance)).sum /
      tblProdSum (applyGgdw st gw).protein_properties /
      (1 - concSum (applyGgdw st gw).concentrations / (applyGgdw st gw).p_total),
    k, hpm, hf, hk, hmk, ?_, ?_⟩
  · exact apply_measurements_err3 h1 h2 hcp
  · rw [hst2]
    rfl

/-- state for C10: the enzyme `U` is unmeasured, has no draw reaction, and its
protein metabolite `prot_U_c` is absent from the model. -/
def c10State : GeckoState :=
  { c2State with
    metabolites := [],
    concentrations := [("E", none), ("U", none)],
    protein_properties := [("E", ⟨50, 1/2⟩), ("U", ⟨50, 1/2⟩)] }

/-- `c10State` after the measured bounds of `E` are applied. -/
def c10St1 : GeckoState :=
  { c10State with
    reactions := [{ id := "prot_pool_exchange", lb := 0, ub := 1000,
                    mets := [(⟨"prot_pool", ""⟩, 1)] },
                  { id := "prot_E_exchange", lb := 0, ub := 5, mets := [] }],
    concentrations := [("E", some (1/4)), ("U", none)] }

/-- `c10St1` after the derived scalars are recomputed. -/
def c10St2 : GeckoState :=
  { c10St1 with
    p_measured := some (1/4),
    fm_mass_fraction_matched := some (1/2),
    fn_mass_fraction_unmeasured_matched := some (1/2),
    f_mass_fraction_measured_matched_to_total := some 1 }

theorem c10w1 : fraction_to_ggdw c10State.protein_properties c10State.p_total
    [("E", 1)] = .ok [("E", (1:ℚ)/4)] := by
  simp [fraction_to_ggdw, seriesSum, lookupAbundances, lookup?,
    c10State, c2State, c1State] <;> norm_num

theorem c10w2 : applyGgdw c10State [("E", (1:ℚ)/4)] = c10St1 := by
  simp [applyGgdw, applyGgdwAux, lookup?, findRxn, setRxnBounds, concSet, hasKey,
    protExId, c10State, c10St1, c2State, c1State] <;> norm_num

theorem c10w3 : computeScalars c10St1 = (c10St2, none) := by
  simp [computeScalars, concSum, unmeasured, unmeasuredOf, lookupRows, lookup?,
    tblProdSum, c10St1, c10St2, c10State, c2State, c1State] <;> norm_num

theorem c10h2 : computeScalars (applyGgdw c10State [("E", (1:ℚ)/4)]) =
    (c10St2, none) := by
  rw [c10w2]
  exact c10w3

/-- witness for C10 at the `c10State` run. -/
theorem C10_missing_metabolite_witness :
    (fraction_to_ggdw c10State.protein_properties c10State.p_total [("E", 1)] =
        .ok [("E", (1:ℚ)/4)] ∧
      computeScalars (applyGgdw c10State [("E", (1:ℚ)/4)]) = (c10St2, none) ∧
      "U" ∈ unmeasured c10St2 ∧
      (findRxn c10St2.reactions "prot_pool_exchange").isSome = true ∧
      findRxn c10St2.reactions (drawId "U") = none ∧
      findMet c10St2.metabolites (protMetId "U") = none) ∧
    (∃ pm fv k, c10St2.p_measured = some pm ∧
      c10St2.f_mass_fraction_measured_matched_to_total = some fv ∧
      k ∈ unmeasured c10St2 ∧
      findMet c10St2.metabolites (protMetId k) = none ∧
      apply_measurements c10State [("E", 1)] =
        ({ c10St2 with
            fs_matched_adjusted := some ((c10St2.p_total - pm) / c10St2.p_base *
              fv * c10St2.sigma_saturation_factor),
            reactions := setRxnBounds c10St2.reactions "prot_pool_exchange" 0
              ((c10St2.p_total - pm) / c10St2.p_base * fv *
                c10St2.sigma_saturation_factor) },
          some (.keyError (protMetId k))) ∧
      c10St2.reactions =
        (applyGgdwAux c10State.protein_properties [("E", (1:ℚ)/4)]
          (c10State.reactions, c10State.concentrations)).1) :=
  ⟨⟨c10w1, c10h2, by decide, by decide, by decide, by decide⟩,
   C10_missing_metabolite c10State c10St2 [("E", 1)] [("E", (1:ℚ)/4)] "U"
     c10w1 c10h2 (by decide) (by decide) (by decide) (by decide)⟩

end Gecko
